import Mathlib

/-!
Verification of the `video_processor` pipeline core.

This file gives a shallow embedding of the parts of the code base that the
checked properties talk about:

* `cache.py`        — `LRUCache` (LRU order + optional TTL, hit/miss counters)
* `downloader.py`   — `_detect_platform`
* `queue.py`        — `MessageQueue` (bounded FIFO + status table + retry)
* `models.py`       — `Task`, `VideoMetadata`, `ProcessingResult`, `to_dict`
* `result_aggregator.py` — `save` / `retrieve` / `_dict_to_result`
* `orchestrator.py` — synchronous pipeline, queue-mode handlers, `get_result`

Python dictionaries are embedded as association lists (`List (String × α)`) with
insertion-order semantics; `OrderedDict` is the same list with its order used as
the recency order.  Wall-clock readings (`time.time()`) are embedded as rationals
supplied explicitly to each operation; `datetime` values are embedded as a
`DateTime` record of calendar components together with concrete
`isoformat` / `fromisoformat` functions on strings.  Exceptions are embedded as
`Except String`; thread locks are dropped (every embedded operation is the
atomic critical section the lock guards).  External stage back-ends
(yt-dlp, ffmpeg, whisper, the LLM) are out of scope of the repository and enter
the orchestrator model as oracle functions in a `StageEnv`.
-/

namespace VideoProcessor

/-! ### Association-list embedding of Python `dict`

`insertKey` is `d[k] = v` (overwrite in place, else append — Python dicts keep
insertion order), `lookupKey` is `d.get(k)`, `eraseKey` is `del d[k]`. -/

def lookupKey {α : Type} : List (String × α) → String → Option α
  | [], _ => none
  | (k, v) :: rest, key => if k = key then some v else lookupKey rest key

def insertKey {α : Type} : List (String × α) → String → α → List (String × α)
  | [], key, v => [(key, v)]
  | (k, w) :: rest, key, v =>
    if k = key then (key, v) :: rest else (k, w) :: insertKey rest key v

def eraseKey {α : Type} : List (String × α) → String → List (String × α)
  | [], _ => []
  | (k, v) :: rest, key => if k = key then rest else (k, v) :: eraseKey rest key

/-- `adjustKey m k f` updates the value stored at `k` in place when `k` is
present and is the identity otherwise (Python `if k in d: mutate d[k]`). -/
def adjustKey {α : Type} : List (String × α) → String → (α → α) →
    List (String × α)
  | [], _, _ => []
  | (k, v) :: rest, key, f =>
    if k = key then (k, f v) :: adjustKey rest key f
    else (k, v) :: adjustKey rest key f

/-! ### `datetime` values and ISO-8601 formatting

`models.py` stores `created_at: datetime` and serializes it with
`datetime.isoformat()`; `result_aggregator.py` parses it back with
`datetime.fromisoformat`.  A `DateTime` is the component tuple of a naive
Python datetime; `isoformat` prints `YYYY-MM-DDTHH:MM:SS[.ffffff]` (the
fractional part is omitted when `microsecond == 0`, as in CPython), and
`fromisoformat` parses exactly that shape, returning `none` where CPython
raises `ValueError`. -/

structure DateTime where
  year : Nat
  month : Nat
  day : Nat
  hour : Nat
  minute : Nat
  second : Nat
  microsecond : Nat
deriving DecidableEq

/-- Component ranges enforced by the `datetime` constructor. -/
def DateTime.Valid (d : DateTime) : Prop :=
  1 ≤ d.year ∧ d.year ≤ 9999 ∧ 1 ≤ d.month ∧ d.month ≤ 12 ∧
  1 ≤ d.day ∧ d.day ≤ 31 ∧ d.hour ≤ 23 ∧ d.minute ≤ 59 ∧
  d.second ≤ 59 ∧ d.microsecond ≤ 999999

instance (d : DateTime) : Decidable d.Valid := by
  unfold DateTime.Valid; infer_instance

/-- Fixed-width decimal printing: `padDigits w n` is `n` printed on exactly `w`
digits (most significant first), i.e. Python's `f-string` zero padding. -/
def padDigits : Nat → Nat → List Char
  | 0, _ => []
  | w + 1, n => Nat.digitChar (n / 10 ^ w % 10) :: padDigits w n

def isDigitChar (c : Char) : Bool :=
  decide (48 ≤ c.toNat) && decide (c.toNat ≤ 57)

def charVal (c : Char) : Nat := c.toNat - 48

/-- Consume exactly `w` decimal digits, accumulating into `acc`. -/
def parseDigits : Nat → Nat → List Char → Option (Nat × List Char)
  | acc, 0, cs => some (acc, cs)
  | _, _ + 1, [] => none
  | acc, w + 1, c :: cs =>
    if isDigitChar c then parseDigits (acc * 10 + charVal c) w cs else none

def expectChar (c : Char) : List Char → Option (List Char)
  | [] => none
  | x :: xs => if x = c then some xs else none

def DateTime.isoChars (d : DateTime) : List Char :=
  padDigits 4 d.year ++ '-' :: padDigits 2 d.month ++ '-' :: padDigits 2 d.day ++
  'T' :: padDigits 2 d.hour ++ ':' :: padDigits 2 d.minute ++
  ':' :: padDigits 2 d.second ++
  (if d.microsecond = 0 then [] else '.' :: padDigits 6 d.microsecond)

def DateTime.isoformat (d : DateTime) : String := String.mk d.isoChars

def DateTime.parseIso (cs : List Char) : Option DateTime := do
  let (y, cs) ← parseDigits 0 4 cs
  let cs ← expectChar '-' cs
  let (mo, cs) ← parseDigits 0 2 cs
  let cs ← expectChar '-' cs
  let (dy, cs) ← parseDigits 0 2 cs
  let cs ← expectChar 'T' cs
  let (h, cs) ← parseDigits 0 2 cs
  let cs ← expectChar ':' cs
  let (mi, cs) ← parseDigits 0 2 cs
  let cs ← expectChar ':' cs
  let (s, cs) ← parseDigits 0 2 cs
  match cs with
  | [] => some ⟨y, mo, dy, h, mi, s, 0⟩
  | '.' :: cs => do
    let (us, cs) ← parseDigits 0 6 cs
    match cs with
    | [] => some ⟨y, mo, dy, h, mi, s, us⟩
    | _ => none
  | _ => none

def DateTime.fromisoformat (s : String) : Option DateTime :=
  DateTime.parseIso s.toList

/-! ### `cache.py` — `LRUCache`

The `OrderedDict` is a list of `(key, (value, timestamp))` entries whose order
is the recency order: head = least recently used, tail = most recently used.
`move_to_end` is erase-and-append.  Timestamps (`time.time()` floats) and the
TTL are embedded as rationals. -/

structure LRUCache (α : Type) where
  max_size : Nat
  ttl : Option Rat
  cache : List (String × α × Rat)
  hits : Nat
  misses : Nat
deriving DecidableEq

/-- `LRUCache.__init__`: raises `CacheError` when `max_size <= 0`. -/
def LRUCache.make (α : Type) (max_size : Int) (ttl : Option Rat) :
    Except String (LRUCache α) :=
  if max_size ≤ 0 then .error "max_size 必须大于 0"
  else .ok ⟨max_size.toNat, ttl, [], 0, 0⟩

/-- `LRUCache._is_expired`. -/
def LRUCache.is_expired {α : Type} (c : LRUCache α) (now timestamp : Rat) : Bool :=
  match c.ttl with
  | none => false
  | some T => decide (now - timestamp > T)

/-- `LRUCache.get`: miss when absent; on an expired entry delete it and miss;
otherwise move to the most-recent end and hit. -/
def LRUCache.get {α : Type} (c : LRUCache α) (key : String) (now : Rat) :
    Option α × LRUCache α :=
  match lookupKey c.cache key with
  | none => (none, { c with misses := c.misses + 1 })
  | some (v, timestamp) =>
    if c.is_expired now timestamp then
      (none, { c with cache := eraseKey c.cache key, misses := c.misses + 1 })
    else
      (some v, { c with cache := eraseKey c.cache key ++ [(key, v, timestamp)],
                        hits := c.hits + 1 })

/-- `LRUCache.set`: delete the key if present, evict the least-recently-used
entry (`popitem(last=False)`, the list head) when at capacity, then insert at
the most-recent end with the current timestamp. -/
def LRUCache.set {α : Type} (c : LRUCache α) (key : String) (value : α)
    (now : Rat) : LRUCache α :=
  let c1 := if (lookupKey c.cache key).isSome then eraseKey c.cache key else c.cache
  let c2 := if c.max_size ≤ c1.length then c1.drop 1 else c1
  { c with cache := c2 ++ [(key, value, now)] }

/-- `LRUCache.delete`. -/
def LRUCache.delete {α : Type} (c : LRUCache α) (key : String) :
    Bool × LRUCache α :=
  if (lookupKey c.cache key).isSome then
    (true, { c with cache := eraseKey c.cache key })
  else (false, c)

/-- `LRUCache.clear`. -/
def LRUCache.clear {α : Type} (c : LRUCache α) : LRUCache α :=
  { c with cache := [], hits := 0, misses := 0 }

/-- `LRUCache.size`. -/
def LRUCache.size {α : Type} (c : LRUCache α) : Nat := c.cache.length

/-- One client call on the cache (`get`/`set`/`delete`/`clear`), carrying the
wall-clock reading the call observes. -/
inductive CacheOp (α : Type) where
  | get (key : String) (now : Rat)
  | set (key : String) (value : α) (now : Rat)
  | delete (key : String)
  | clear
deriving DecidableEq

def LRUCache.step {α : Type} (c : LRUCache α) : CacheOp α → LRUCache α
  | .get key now => (c.get key now).2
  | .set key value now => c.set key value now
  | .delete key => (c.delete key).2
  | .clear => c.clear

def LRUCache.run {α : Type} (c : LRUCache α) (ops : List (CacheOp α)) :
    LRUCache α :=
  ops.foldl LRUCache.step c

/-! ### `downloader.py` — `VideoDownloader._detect_platform`

Python `in` on strings is substring containment; `DownloadError` is the
`.error` branch. -/

def strContains (s pat : String) : Bool := decide (pat.toList <:+: s.toList)

def detect_platform (url : String) : Except String String :=
  if strContains url "youtube.com" || strContains url "youtu.be" then
    .ok "youtube"
  else if strContains url "bilibili.com" || strContains url "b23.tv" then
    .ok "bilibili"
  else
    .error ("不支持的平台: " ++ url)

/-! ### `models.py` — task and result records -/

inductive TaskStatus where
  | pending
  | running
  | completed
  | failed
deriving DecidableEq

inductive TaskType where
  | download
  | extract
  | transcribe
  | summarize
deriving DecidableEq

/-- `Task` dataclass.  `input_data: Dict[str, Any]` is embedded as a string
association list (every value the orchestrator ever stores there is a string;
an absent key embeds a Python `None` value). -/
structure Task where
  task_id : String
  task_type : TaskType
  input_data : List (String × String)
  retry_count : Nat
  max_retries : Nat
  status : TaskStatus
  created_at : DateTime
  updated_at : DateTime
  error_message : Option String
deriving DecidableEq

/-- The in-place update `dequeue` performs on the task object. -/
def Task.runningAt (t : Task) (now : DateTime) : Task :=
  { t with status := TaskStatus.running, updated_at := now }

/-- A status overwrite, as `mark_failed`/`mark_completed` perform it. -/
def Task.withStatus (t : Task) (s : TaskStatus) : Task :=
  { t with status := s }

/-- The in-place update `mark_completed` performs on the task object. -/
def Task.completedAt (t : Task) (now : DateTime) : Task :=
  { t with status := TaskStatus.completed, updated_at := now }

/-- The in-place update `mark_failed` performs on the task object: error
recorded, `updated_at` stamped, retry counter incremented, status set. -/
def Task.failedWith (t : Task) (msg : String) (now : DateTime)
    (s : TaskStatus) : Task :=
  { t with
    error_message := some msg,
    updated_at := now,
    retry_count := t.retry_count + 1,
    status := s }

structure VideoMetadata where
  url : String
  title : Option String
  duration : Option Int
  platform : Option String
  upload_date : Option String
  channel : Option String
deriving DecidableEq

/-- `ProcessingResult` dataclass.  `processing_time` (a float, seconds) is
embedded as a rational. -/
structure ProcessingResult where
  task_id : String
  video_metadata : VideoMetadata
  video_path : String
  audio_path : String
  transcript : String
  summary : String
  processing_time : Rat
  created_at : DateTime
deriving DecidableEq

/-- The dictionary produced by `ProcessingResult.to_dict` (and stored as the
JSON file body): identical fields except that `created_at` is the ISO-8601
string.  `json.dump` / `json.load` round-trip this payload unchanged, so the
file store keeps the dictionary itself. -/
structure ResultDict where
  task_id : String
  video_metadata : VideoMetadata
  video_path : String
  audio_path : String
  transcript : String
  summary : String
  processing_time : Rat
  created_at : String
deriving DecidableEq

def ProcessingResult.to_dict (r : ProcessingResult) : ResultDict :=
  { task_id := r.task_id
    video_metadata := r.video_metadata
    video_path := r.video_path
    audio_path := r.audio_path
    transcript := r.transcript
    summary := r.summary
    processing_time := r.processing_time
    created_at := r.created_at.isoformat }

/-! ### `queue.py` — `MessageQueue`

The `Queue` channel holds `Task` objects, but those objects are the very same
mutable objects stored in the `tasks` side table, so the channel is embedded as
a list of task ids (FIFO order) with the side table as the authority on the
current field values. -/

structure MessageQueue where
  max_size : Nat
  fifo : List String
  tasks : List (String × Task)
  completed_count : Nat
  failed_count : Nat
deriving DecidableEq

/-- `MessageQueue.__init__`: raises `QueueError` when `max_size <= 0`. -/
def MessageQueue.make (max_size : Int) : Except String MessageQueue :=
  if max_size ≤ 0 then .error "max_size 必须大于 0"
  else .ok ⟨max_size.toNat, [], [], 0, 0⟩

/-- `MessageQueue.enqueue`: construct a PENDING task (with the dataclass
defaults `retry_count = 0`, `max_retries = 3`), push it (`QueueError` when the
channel is at capacity), and register it in the side table.  The freshly minted
`uuid4` id and the `datetime.now()` reading are passed in explicitly. -/
def MessageQueue.enqueue (q : MessageQueue) (task_type : TaskType)
    (input_data : List (String × String)) (task_id : String) (now : DateTime) :
    Except String (MessageQueue × String) :=
  if q.max_size ≤ q.fifo.length then .error "队列已满"
  else
    .ok ({ q with
            fifo := q.fifo ++ [task_id],
            tasks := insertKey q.tasks task_id
              ⟨task_id, task_type, input_data, 0, 3, .pending, now, now, none⟩ },
         task_id)

/-- `MessageQueue.dequeue`: pop the head task, mark it RUNNING, stamp
`updated_at`, and return it; `none` when the channel is empty.  (The
`lookupKey = none` branch is unreachable: every id in the channel was
registered by `enqueue` or re-pushed by `mark_failed`.) -/
def MessageQueue.dequeue (q : MessageQueue) (now : DateTime) :
    Option Task × MessageQueue :=
  match q.fifo with
  | [] => (none, q)
  | task_id :: rest =>
    match lookupKey q.tasks task_id with
    | none => (none, { q with fifo := rest })
    | some t =>
      let t1 := { t with status := TaskStatus.running, updated_at := now }
      (some t1, { q with fifo := rest, tasks := insertKey q.tasks task_id t1 })

/-- `MessageQueue.mark_completed`. -/
def MessageQueue.mark_completed (q : MessageQueue) (task_id : String)
    (now : DateTime) : Bool × MessageQueue :=
  match lookupKey q.tasks task_id with
  | none => (false, q)
  | some t =>
    (true, { q with
              tasks := insertKey q.tasks task_id
                { t with status := TaskStatus.completed, updated_at := now },
              completed_count := q.completed_count + 1 })

/-- `MessageQueue.mark_failed`: record the error, increment `retry_count`; if
the new count is `≤ max_retries`, set PENDING and re-push (when the re-push
hits a full channel the task becomes FAILED and the failed counter is
incremented); otherwise set FAILED and increment the failed counter. -/
def MessageQueue.mark_failed (q : MessageQueue) (task_id : String)
    (error_message : String) (now : DateTime) : Bool × MessageQueue :=
  match lookupKey q.tasks task_id with
  | none => (false, q)
  | some t =>
    let t1 := { t with error_message := some error_message, updated_at := now,
                       retry_count := t.retry_count + 1 }
    if t1.retry_count ≤ t1.max_retries then
      if q.max_size ≤ q.fifo.length then
        (true, { q with
                  tasks := insertKey q.tasks task_id
                    { t1 with status := TaskStatus.failed },
                  failed_count := q.failed_count + 1 })
      else
        (true, { q with
                  fifo := q.fifo ++ [task_id],
                  tasks := insertKey q.tasks task_id
                    { t1 with status := TaskStatus.pending } })
    else
      (true, { q with
                tasks := insertKey q.tasks task_id
                  { t1 with status := TaskStatus.failed },
                failed_count := q.failed_count + 1 })

/-- `MessageQueue.clear`. -/
def MessageQueue.clearQueue (q : MessageQueue) : MessageQueue :=
  { q with fifo := [], tasks := [], completed_count := 0, failed_count := 0 }

/-- One client call on the queue, with the `uuid4` / `datetime.now()` values
the call observes passed explicitly. -/
inductive QOp where
  | enq (task_type : TaskType) (input_data : List (String × String))
      (task_id : String) (now : DateTime)
  | deq (now : DateTime)
  | done (task_id : String) (now : DateTime)
  | fail (task_id : String) (msg : String) (now : DateTime)
deriving DecidableEq

def MessageQueue.step (q : MessageQueue) : QOp → MessageQueue
  | .enq task_type input_data task_id now =>
    match q.enqueue task_type input_data task_id now with
    | .ok (q1, _) => q1
    | .error _ => q
  | .deq now => (q.dequeue now).2
  | .done task_id now => (q.mark_completed task_id now).2
  | .fail task_id msg now => (q.mark_failed task_id msg now).2

def MessageQueue.run (q : MessageQueue) (ops : List QOp) : MessageQueue :=
  ops.foldl MessageQueue.step q

/-- How many of the dequeues in `ops` (run from `q`) return the task with id
`tid`: the number of times a worker obtains this task. -/
def MessageQueue.deqHits (q : MessageQueue) (ops : List QOp) (tid : String) :
    Nat :=
  match ops with
  | [] => 0
  | op :: rest =>
    (match op with
     | .deq now =>
       match (q.dequeue now).1 with
       | some t => if t.task_id = tid then 1 else 0
       | none => 0
     | _ => 0) + (q.step op).deqHits rest tid

/-- An `enqueue` request: the arguments plus the minted id and clock reading. -/
structure EnqReq where
  task_type : TaskType
  input_data : List (String × String)
  task_id : String
  now : DateTime
deriving DecidableEq

def MessageQueue.enqueueSeq (q : MessageQueue) : List EnqReq → MessageQueue
  | [] => q
  | e :: es => (q.step (.enq e.task_type e.input_data e.task_id e.now)).enqueueSeq es

/-- Run one `dequeue` per clock reading, collecting the returned tasks. -/
def MessageQueue.dequeueSeq (q : MessageQueue) : List DateTime →
    List (Option Task) × MessageQueue
  | [] => ([], q)
  | now :: rest =>
    let (r, q1) := q.dequeue now
    let (rs, q2) := q1.dequeueSeq rest
    (r :: rs, q2)

/-- The task `enqueue` constructs for a request. -/
def EnqReq.task (e : EnqReq) : Task :=
  ⟨e.task_id, e.task_type, e.input_data, 0, 3, .pending, e.now, e.now, none⟩

/-- The task as `dequeue` returns it: RUNNING, `updated_at` stamped. -/
def EnqReq.runningAt (e : EnqReq) (now : DateTime) : Task :=
  { e.task with status := TaskStatus.running, updated_at := now }

/-! ### `result_aggregator.py` — `ResultAggregator`

The storage directory holds one `<task_id>.json` file per saved result; it is
embedded as a map from task id to the parsed file body (`json.dump`/`json.load`
round-trip the payload unchanged).  `_results_cache` is the in-memory cache. -/

structure ResultAggregator where
  storage : List (String × ResultDict)
  results_cache : List (String × ProcessingResult)
deriving DecidableEq

/-- `ResultAggregator.save`: serialize `result.to_dict()` to
`<task_id>.json`. -/
def ResultAggregator.save (a : ResultAggregator) (result : ProcessingResult) :
    ResultAggregator × String :=
  ({ a with storage := insertKey a.storage result.task_id result.to_dict },
   result.task_id ++ ".json")

/-- `ResultAggregator._dict_to_result`; `none` where the Python code raises
(`datetime.fromisoformat` failing). -/
def ResultAggregator.dict_to_result (d : ResultDict) : Option ProcessingResult :=
  (DateTime.fromisoformat d.created_at).map fun created_at =>
    { task_id := d.task_id
      video_metadata := d.video_metadata
      video_path := d.video_path
      audio_path := d.audio_path
      transcript := d.transcript
      summary := d.summary
      processing_time := d.processing_time
      created_at := created_at }

/-- `ResultAggregator.retrieve`: in-memory cache hit, else read the file,
deserialize, populate the cache; `none` for a missing file and for any
deserialization error (the `except` branch returns `None`). -/
def ResultAggregator.retrieve (a : ResultAggregator) (task_id : String) :
    Option ProcessingResult × ResultAggregator :=
  match lookupKey a.results_cache task_id with
  | some r => (some r, a)
  | none =>
    match lookupKey a.storage task_id with
    | none => (none, a)
    | some d =>
      match ResultAggregator.dict_to_result d with
      | none => (none, a)
      | some r =>
        (some r, { a with results_cache := insertKey a.results_cache task_id r })

/-! ### `orchestrator.py` — `Orchestrator`

The orchestrator state kept here is the part the claims mention: the
`results` map, the `task_metadata` map and the message queue.  The shared
`LRUCache` and the thread pool do not affect these claims: each stage helper
(`_download_video`, …) consults the cache and otherwise calls its back-end, and
that whole helper is embedded as one oracle function in `StageEnv` returning
either the stage output or the message of the stage-typed error it raises.
`_get_video_metadata` never fails (it falls back to `VideoMetadata(url=url)`),
so its oracle returns the metadata directly; the code always sets
`url = video_url` on the returned record. -/

structure PipelineMeta where
  video_url : String
  start_time : Rat
  status : String
  end_time : Option Rat
  error : Option String
  queue_tasks : List (String × String)
deriving DecidableEq

structure Orchestrator where
  results : List (String × ProcessingResult)
  task_metadata : List (String × PipelineMeta)
  message_queue : MessageQueue
deriving DecidableEq

structure StageEnv where
  download : String → Except String String
  extract : String → Except String String
  transcribe : String → Except String String
  summarize : String → Except String String
  video_info : String → VideoMetadata

def StageEnv.get_video_metadata (env : StageEnv) (video_url : String) :
    VideoMetadata :=
  { env.video_info video_url with url := video_url }

/-- `Orchestrator.get_result`. -/
def Orchestrator.get_result (o : Orchestrator) (task_id : String) :
    Option ProcessingResult :=
  lookupKey o.results task_id

/-- `Orchestrator._process_video_sync`: run the four stages in order, then
build the `ProcessingResult` and store it, marking the pipeline metadata
completed.  `t_result` and `t_end` are the two `time.time()` readings taken
when the result is built and when `end_time` is recorded; `created` is the
`datetime.now()` default of `ProcessingResult.created_at`.  An `.error` is the
stage exception propagating out. -/
def Orchestrator.process_video_sync (env : StageEnv) (o : Orchestrator)
    (task_id video_url : String) (start_time t_result t_end : Rat)
    (created : DateTime) : Except String Orchestrator :=
  match env.download video_url with
  | .error e => .error e
  | .ok video_path =>
    match env.extract video_path with
    | .error e => .error e
    | .ok audio_path =>
      match env.transcribe audio_path with
      | .error e => .error e
      | .ok transcript =>
        match env.summarize transcript with
        | .error e => .error e
        | .ok summary =>
          let video_metadata := env.get_video_metadata video_url
          let result : ProcessingResult :=
            { task_id := task_id
              video_metadata := video_metadata
              video_path := video_path
              audio_path := audio_path
              transcript := transcript
              summary := summary
              processing_time := t_result - start_time
              created_at := created }
          .ok { o with
                  results := insertKey o.results task_id result,
                  task_metadata := adjustKey o.task_metadata task_id fun m =>
                    { m with status := "completed", end_time := some t_end } }

/-- `Orchestrator._enqueue_pipeline_tasks`: enqueue the DOWNLOAD task carrying
`{parent_task_id, video_url}` and record its queue-task id in the pipeline
metadata. -/
def Orchestrator.enqueue_pipeline_tasks (o : Orchestrator)
    (task_id video_url dl_tid : String) (dnow : DateTime) :
    Except String Orchestrator :=
  match o.message_queue.enqueue .download
      [("parent_task_id", task_id), ("video_url", video_url)] dl_tid dnow with
  | .error e => .error ("入队任务失败: " ++ e)
  | .ok (q1, download_task_id) =>
    .ok { o with
            message_queue := q1,
            task_metadata := adjustKey o.task_metadata task_id fun m =>
              { m with queue_tasks :=
                  insertKey m.queue_tasks "download" download_task_id } }

/-- `Orchestrator.process_video`: record `status=processing` metadata, then
either enqueue the pipeline (queue mode) or run it inline; on any exception
mark the metadata failed with the error text and raise
`VideoProcessingError`. -/
def Orchestrator.process_video (env : StageEnv) (o : Orchestrator)
    (task_id video_url : String) (use_queue : Bool)
    (start_time t_result t_end : Rat) (created : DateTime)
    (dl_tid : String) (dnow : DateTime) :
    Except String String × Orchestrator :=
  let meta0 : PipelineMeta := ⟨video_url, start_time, "processing", none, none, []⟩
  let o1 := { o with task_metadata := insertKey o.task_metadata task_id meta0 }
  let handled : Except String Orchestrator :=
    if use_queue then o1.enqueue_pipeline_tasks task_id video_url dl_tid dnow
    else o1.process_video_sync env task_id video_url start_time t_result t_end created
  match handled with
  | .ok o2 => (.ok task_id, o2)
  | .error e =>
    (.error ("视频处理失败: " ++ e),
     { o1 with task_metadata := adjustKey o1.task_metadata task_id fun m =>
        { m with status := "failed", error := some e } })

/-- Record the queue-task id of a stage under the parent pipeline's metadata
(`if parent_task_id in self.task_metadata: ...`); a `None` parent is never a
key. -/
def Orchestrator.record_queue_task (o : Orchestrator) (parent : Option String)
    (stage tid : String) : Orchestrator :=
  match parent with
  | none => o
  | some p =>
    { o with task_metadata := adjustKey o.task_metadata p fun m =>
        { m with queue_tasks := insertKey m.queue_tasks stage tid } }

/-- `Orchestrator._process_download_task`: download, then enqueue EXTRACT with
`{parent_task_id, video_path}`.  A missing `video_url` key (Python `None`)
makes the stage helper raise, which surfaces as `.error`. -/
def Orchestrator.process_download_task (env : StageEnv) (o : Orchestrator)
    (task : Task) (parent : Option String) (next_tid : String) (dnow : DateTime) :
    Except String Orchestrator :=
  match lookupKey task.input_data "video_url" with
  | none => .error "视频下载失败: url 为空"
  | some video_url =>
    match env.download video_url with
    | .error e => .error e
    | .ok video_path =>
      match o.message_queue.enqueue .extract
          ((match parent with
            | some p => [("parent_task_id", p)]
            | none => []) ++ [("video_path", video_path)]) next_tid dnow with
      | .error e => .error e
      | .ok (q1, extract_task_id) =>
        .ok (Orchestrator.record_queue_task { o with message_queue := q1 }
              parent "extract" extract_task_id)

/-- `Orchestrator._process_extract_task`. -/
def Orchestrator.process_extract_task (env : StageEnv) (o : Orchestrator)
    (task : Task) (parent : Option String) (next_tid : String) (dnow : DateTime) :
    Except String Orchestrator :=
  match lookupKey task.input_data "video_path" with
  | none => .error "音频提取失败: 路径为空"
  | some video_path =>
    match env.extract video_path with
    | .error e => .error e
    | .ok audio_path =>
      match o.message_queue.enqueue .transcribe
          ((match parent with
            | some p => [("parent_task_id", p)]
            | none => []) ++ [("audio_path", audio_path)]) next_tid dnow with
      | .error e => .error e
      | .ok (q1, transcribe_task_id) =>
        .ok (Orchestrator.record_queue_task { o with message_queue := q1 }
              parent "transcribe" transcribe_task_id)

/-- `Orchestrator._process_transcribe_task`. -/
def Orchestrator.process_transcribe_task (env : StageEnv) (o : Orchestrator)
    (task : Task) (parent : Option String) (next_tid : String) (dnow : DateTime) :
    Except String Orchestrator :=
  match lookupKey task.input_data "audio_path" with
  | none => .error "转录生成失败: 路径为空"
  | some audio_path =>
    match env.transcribe audio_path with
    | .error e => .error e
    | .ok transcript =>
      match o.message_queue.enqueue .summarize
          ((match parent with
            | some p => [("parent_task_id", p)]
            | none => []) ++ [("transcript", transcript)]) next_tid dnow with
      | .error e => .error e
      | .ok (q1, summarize_task_id) =>
        .ok (Orchestrator.record_queue_task { o with message_queue := q1 }
              parent "summarize" summarize_task_id)

/-- `Orchestrator._process_summarize_task`: generate the summary, then mark the
parent pipeline's metadata completed.  No `ProcessingResult` is built. -/
def Orchestrator.process_summarize_task (env : StageEnv) (o : Orchestrator)
    (task : Task) (parent : Option String) (t_end : Rat) :
    Except String Orchestrator :=
  match lookupKey task.input_data "transcript" with
  | none => .error "总结生成失败: 转录为空"
  | some transcript =>
    match env.summarize transcript with
    | .error e => .error e
    | .ok _summary =>
      .ok (match parent with
           | none => o
           | some p =>
             { o with task_metadata := adjustKey o.task_metadata p fun m =>
                 { m with status := "completed", end_time := some t_end } })

/-- `Orchestrator.process_queue_task`: dispatch on the task type, then
`mark_completed`; any handler exception is caught and reported through
`mark_failed`.  The handlers only mutate state after their last fallible call,
so the caught-exception branch sees the pre-handler state. -/
def Orchestrator.process_queue_task (env : StageEnv) (o : Orchestrator)
    (task : Task) (next_tid : String) (dnow : DateTime) (t_end : Rat) :
    Orchestrator :=
  let parent := lookupKey task.input_data "parent_task_id"
  let handled : Except String Orchestrator :=
    match task.task_type with
    | .download => Orchestrator.process_download_task env o task parent next_tid dnow
    | .extract => Orchestrator.process_extract_task env o task parent next_tid dnow
    | .transcribe => Orchestrator.process_transcribe_task env o task parent next_tid dnow
    | .summarize => Orchestrator.process_summarize_task env o task parent t_end
  match handled with
  | .ok o1 =>
    { o1 with message_queue := (o1.message_queue.mark_completed task.task_id dnow).2 }
  | .error e =>
    { o with message_queue := (o.message_queue.mark_failed task.task_id e dnow).2 }

/-- One iteration of `Orchestrator.process_queue_worker`: dequeue (skip when
the queue is empty) and process the task. -/
def Orchestrator.worker_step (env : StageEnv) (o : Orchestrator)
    (next_tid : String) (dnow : DateTime) (t_end : Rat) : Orchestrator :=
  match o.message_queue.dequeue dnow with
  | (none, q1) => { o with message_queue := q1 }
  | (some task, q1) =>
    Orchestrator.process_queue_task env { o with message_queue := q1 } task
      next_tid dnow t_end

/-- A queue-mode event: a `process_video(url, use_queue=True)` call or one
worker iteration. -/
inductive QueueModeOp where
  | start (pid video_url dl_tid : String) (start_time : Rat) (dnow : DateTime)
  | work (next_tid : String) (dnow : DateTime) (t_end : Rat)
deriving DecidableEq

def Orchestrator.qstep (env : StageEnv) (o : Orchestrator) :
    QueueModeOp → Orchestrator
  | .start pid video_url dl_tid start_time dnow =>
    (o.process_video env pid video_url true start_time 0 0
      ⟨1, 1, 1, 0, 0, 0, 0⟩ dl_tid dnow).2
  | .work next_tid dnow t_end => o.worker_step env next_tid dnow t_end

def Orchestrator.qrun (env : StageEnv) (o : Orchestrator)
    (ops : List QueueModeOp) : Orchestrator :=
  ops.foldl (Orchestrator.qstep env) o

/-- Number of `mark_failed` calls in a list of queue operations. -/
def failCount (ops : List QOp) : Nat :=
  ops.countP fun op =>
    match op with
    | .fail _ _ _ => true
    | _ => false

/-- Operations allowed in a retry scenario for task `tid`: dequeues and
`mark_failed tid` reports. -/
def isRetryOp (tid : String) : QOp → Bool
  | .deq _ => true
  | .fail tid' _ _ => tid' = tid
  | _ => false

/-- The queue state right after a single task has been enqueued: one PENDING
task registered and sitting alone in the channel.  `max_retries` is kept as a
parameter `R` (the dataclass default used by `enqueue` is `3`). -/
def retryScenarioQueue (M R : Nat) (tid : String) (tt : TaskType)
    (inp : List (String × String)) (d0 : DateTime) : MessageQueue :=
  ⟨M, [tid], [(tid, ⟨tid, tt, inp, 0, R, .pending, d0, d0, none⟩)], 0, 0⟩

/-- Client discipline on a single queue call: failure is reported only for a
task currently RUNNING (i.e. after the reporter dequeued it), completion is
never reported for a FAILED task, and enqueued ids are fresh (`uuid4`). -/
def okOp (q : MessageQueue) : QOp → Bool
  | .enq _ _ tid _ => (lookupKey q.tasks tid).isNone
  | .deq _ => true
  | .done tid _ =>
    match lookupKey q.tasks tid with
    | some t => decide (t.status ≠ .failed)
    | none => true
  | .fail tid _ _ =>
    match lookupKey q.tasks tid with
    | some t => decide (t.status = .running)
    | none => true

/-- A whole operation sequence observes the client discipline from state `q`. -/
def Disciplined (q : MessageQueue) : List QOp → Bool
  | [] => true
  | op :: rest => okOp q op && Disciplined (q.step op) rest

/-- Occurrences of an id in the FIFO channel. -/
def countStr : List String → String → Nat
  | [], _ => 0
  | x :: rest, s => (if x = s then 1 else 0) + countStr rest s

/-- The queue's state invariant under the client discipline: every queued id is
registered; each task has at most one queued copy, none while RUNNING or
FAILED; a queued task still has retries left; `retry_count ≤ max_retries + 1`;
and a task whose counter passed `max_retries` is FAILED. -/
def QInv (q : MessageQueue) : Prop :=
  (∀ tid ∈ q.fifo, ∃ t, lookupKey q.tasks tid = some t) ∧
  (∀ tid t, lookupKey q.tasks tid = some t →
    countStr q.fifo tid ≤ 1 ∧
    ((t.status = TaskStatus.running ∨ t.status = TaskStatus.failed) →
      countStr q.fifo tid = 0) ∧
    (tid ∈ q.fifo → t.retry_count ≤ t.max_retries) ∧
    t.retry_count ≤ t.max_retries + 1 ∧
    (t.max_retries < t.retry_count → t.status = TaskStatus.failed))

/-- A run of the system in synchronous mode, exhibiting the `ResultAggregator`
state alongside the orchestrator: `process_video` contains no call into the
aggregator (the orchestrator neither constructs nor references one), so the
aggregator component passes through unchanged. -/
def syncSystemRun (env : StageEnv) (o : Orchestrator) (a : ResultAggregator)
    (task_id video_url : String) (start_time t_result t_end : Rat)
    (created : DateTime) : Except String String × Orchestrator × ResultAggregator :=
  let (r, o1) := o.process_video env task_id video_url false start_time t_result
    t_end created "" ⟨1, 1, 1, 0, 0, 0, 0⟩
  (r, o1, a)

/-- A stub stage environment whose four back-ends always succeed (the stubbed
pipeline of the spec's Scenario 1). -/
def envC : StageEnv :=
  ⟨fun _ => .ok "/v/abc.mp4", fun _ => .ok "/a/abc.mp3", fun _ => .ok "hello",
   fun _ => .ok "hi", fun u => ⟨u, none, none, none, none, none⟩⟩

/-- A stub stage environment whose download back-end always raises. -/
def envFail : StageEnv :=
  ⟨fun _ => .error "下载失败", fun _ => .ok "/a/abc.mp3", fun _ => .ok "hello",
   fun _ => .ok "hi", fun u => ⟨u, none, none, none, none, none⟩⟩

/-! ## Lemmas about the `dict` embedding -/

theorem lookupKey_insertKey_self {α : Type} (m : List (String × α)) (k : String)
    (v : α) : lookupKey (insertKey m k v) k = some v := by
  induction m with
  | nil => simp [insertKey, lookupKey]
  | cons kv rest ih =>
    obtain ⟨k1, v1⟩ := kv
    by_cases h : k1 = k <;> simp [insertKey, lookupKey, h, ih]

theorem lookupKey_insertKey_ne {α : Type} (m : List (String × α))
    (k k' : String) (v : α) (h : k ≠ k') :
    lookupKey (insertKey m k v) k' = lookupKey m k' := by
  induction m with
  | nil => simp [insertKey, lookupKey, h]
  | cons kv rest ih =>
    obtain ⟨k1, v1⟩ := kv
    by_cases h1 : k1 = k
    · subst h1; simp [insertKey, lookupKey, h]
    · simp only [insertKey, if_neg h1, lookupKey]
      by_cases h2 : k1 = k' <;> simp [h2, ih]

theorem lookupKey_eq_none_iff {α : Type} (m : List (String × α)) (k : String) :
    lookupKey m k = none ↔ k ∉ m.map Prod.fst := by
  induction m with
  | nil => simp [lookupKey]
  | cons kv rest ih =>
    obtain ⟨k1, v1⟩ := kv
    by_cases h : k1 = k
    · subst h; simp [lookupKey]
    · simp [lookupKey, h, ih, Ne.symm h]

theorem lookupKey_append_of_not_mem {α : Type} (l1 l2 : List (String × α))
    (k : String) (h : k ∉ l1.map Prod.fst) :
    lookupKey (l1 ++ l2) k = lookupKey l2 k := by
  induction l1 with
  | nil => rfl
  | cons kv rest ih =>
    obtain ⟨k1, v1⟩ := kv
    simp only [List.map_cons, List.mem_cons] at h
    push_neg at h
    simpa [lookupKey, Ne.symm h.1] using ih h.2

theorem eraseKey_sublist {α : Type} (m : List (String × α)) (k : String) :
    (eraseKey m k).Sublist m := by
  induction m with
  | nil => simp [eraseKey]
  | cons kv rest ih =>
    obtain ⟨k1, v1⟩ := kv
    by_cases h : k1 = k
    · simp only [eraseKey, if_pos h]
      exact List.sublist_cons_self (k1, v1) rest
    · simp only [eraseKey, if_neg h]
      exact List.Sublist.cons₂ (k1, v1) ih

theorem length_eraseKey_le {α : Type} (m : List (String × α)) (k : String) :
    (eraseKey m k).length ≤ m.length :=
  (eraseKey_sublist m k).length_le

theorem length_eraseKey_of_mem {α : Type} (m : List (String × α)) (k : String)
    (v : α) (h : lookupKey m k = some v) :
    (eraseKey m k).length + 1 = m.length := by
  induction m with
  | nil => simp [lookupKey] at h
  | cons kv rest ih =>
    obtain ⟨k1, v1⟩ := kv
    by_cases h1 : k1 = k
    · simp [eraseKey, h1]
    · simp only [lookupKey, h1, if_false] at h
      simp [eraseKey, h1, ih h]

theorem not_mem_eraseKey_of_nodup {α : Type} (m : List (String × α)) (k : String)
    (h : (m.map Prod.fst).Nodup) : k ∉ (eraseKey m k).map Prod.fst := by
  induction m with
  | nil => simp [eraseKey]
  | cons kv rest ih =>
    obtain ⟨k1, v1⟩ := kv
    simp only [List.map_cons, List.nodup_cons] at h
    by_cases h1 : k1 = k
    · subst h1; simpa [eraseKey] using h.1
    · simp only [eraseKey, if_neg h1, List.map_cons, List.mem_cons]
      push_neg
      exact ⟨Ne.symm h1, ih h.2⟩

theorem eraseKey_append_cons {α : Type} (l1 l2 : List (String × α)) (k : String)
    (x : α) (h : k ∉ l1.map Prod.fst) :
    eraseKey (l1 ++ (k, x) :: l2) k = l1 ++ l2 := by
  induction l1 with
  | nil => simp [eraseKey]
  | cons kv rest ih =>
    obtain ⟨k1, v1⟩ := kv
    simp only [List.map_cons, List.mem_cons] at h
    push_neg at h
    simp [eraseKey, Ne.symm h.1, ih h.2]

theorem lookupKey_adjustKey_self {α : Type} (m : List (String × α)) (k : String)
    (f : α → α) : lookupKey (adjustKey m k f) k = (lookupKey m k).map f := by
  induction m with
  | nil => simp [adjustKey, lookupKey]
  | cons kv rest ih =>
    obtain ⟨k1, v1⟩ := kv
    by_cases h : k1 = k
    · subst h; simp [adjustKey, lookupKey]
    · simp [adjustKey, lookupKey, h, ih]

theorem lookupKey_adjustKey_ne {α : Type} (m : List (String × α))
    (k k' : String) (f : α → α) (h : k ≠ k') :
    lookupKey (adjustKey m k f) k' = lookupKey m k' := by
  induction m with
  | nil => simp [adjustKey, lookupKey]
  | cons kv rest ih =>
    obtain ⟨k1, v1⟩ := kv
    by_cases h1 : k1 = k
    · subst h1
      simp [adjustKey, lookupKey, h, ih]
    · simp only [adjustKey, if_neg h1, lookupKey]
      by_cases h2 : k1 = k' <;> simp [h2, ih]

/-! ## C9 — platform detection -/

/-- C9: `_detect_platform` returns `"youtube"` for URLs containing
`youtube.com` or `youtu.be`, `"bilibili"` for URLs containing `bilibili.com` or
`b23.tv` (tested after the youtube patterns, as in the `if`/`elif` chain), and
raises `DownloadError` otherwise. -/
theorem detect_platform_spec (url : String) :
    ((strContains url "youtube.com" || strContains url "youtu.be") = true →
      detect_platform url = .ok "youtube") ∧
    ((strContains url "youtube.com" || strContains url "youtu.be") = false →
      (strContains url "bilibili.com" || strContains url "b23.tv") = true →
      detect_platform url = .ok "bilibili") ∧
    ((strContains url "youtube.com" || strContains url "youtu.be") = false →
      (strContains url "bilibili.com" || strContains url "b23.tv") = false →
      detect_platform url = .error ("不支持的平台: " ++ url)) := by
  refine ⟨fun h => ?_, fun h1 h2 => ?_, fun h1 h2 => ?_⟩
  · simp [detect_platform, h]
  · simp [detect_platform, h1, h2]
  · simp [detect_platform, h1, h2]

theorem detect_platform_spec_witness :
    detect_platform "https://youtu.be/x" = .ok "youtube" ∧
    detect_platform "https://b23.tv/x" = .ok "bilibili" ∧
    detect_platform "https://example.com" =
      .error ("不支持的平台: " ++ "https://example.com") :=
  ⟨(detect_platform_spec "https://youtu.be/x").1 (by decide),
   (detect_platform_spec "https://b23.tv/x").2.1 (by decide) (by decide),
   (detect_platform_spec "https://example.com").2.2 (by decide) (by decide)⟩

/-! ## Cache lemmas (C2, C7) -/

theorem LRUCache.step_max_size {α : Type} (c : LRUCache α) (op : CacheOp α) :
    (c.step op).max_size = c.max_size := by
  cases op with
  | get key now =>
    simp only [step, get]
    rcases h : lookupKey c.cache key with _ | ⟨v, ts⟩
    · rfl
    · by_cases he : c.is_expired now ts <;> simp [he]
  | set key v now => rfl
  | delete key =>
    simp only [step, delete]
    split <;> rfl
  | clear => rfl

theorem LRUCache.step_ttl {α : Type} (c : LRUCache α) (op : CacheOp α) :
    (c.step op).ttl = c.ttl := by
  cases op with
  | get key now =>
    simp only [step, get]
    rcases h : lookupKey c.cache key with _ | ⟨v, ts⟩
    · rfl
    · by_cases he : c.is_expired now ts <;> simp [he]
  | set key v now => rfl
  | delete key =>
    simp only [step, delete]
    split <;> rfl
  | clear => rfl

theorem LRUCache.step_length {α : Type} (c : LRUCache α) (op : CacheOp α)
    (hmax : 1 ≤ c.max_size) (hlen : c.cache.length ≤ c.max_size) :
    (c.step op).cache.length ≤ c.max_size := by
  cases op with
  | get key now =>
    simp only [step, get]
    rcases h : lookupKey c.cache key with _ | ⟨v, ts⟩
    · exact hlen
    · by_cases he : c.is_expired now ts
      · simpa [he] using le_trans (length_eraseKey_le c.cache key) hlen
      · have h1 := length_eraseKey_of_mem c.cache key _ h
        simp only [he, Bool.false_eq_true, if_false]
        simpa [List.length_append, h1] using hlen
  | set key v now =>
    simp only [step, set]
    set c1 := if (lookupKey c.cache key).isSome then eraseKey c.cache key
      else c.cache with hc1
    have hc1len : c1.length ≤ c.cache.length := by
      rw [hc1]; split
      · exact length_eraseKey_le c.cache key
      · exact le_refl _
    by_cases hfull : c.max_size ≤ c1.length
    · have h1 : 1 ≤ c1.length := le_trans hmax hfull
      simp only [if_pos hfull, List.length_append, List.length_drop,
        List.length_cons, List.length_nil]
      omega
    · simp only [if_neg hfull, List.length_append, List.length_cons,
        List.length_nil]
      omega
  | delete key =>
    simp only [step, delete]
    split
    · simpa using le_trans (length_eraseKey_le c.cache key) hlen
    · exact hlen
  | clear => simp [step, clear]

theorem LRUCache.run_max_size {α : Type} (c : LRUCache α)
    (ops : List (CacheOp α)) : (c.run ops).max_size = c.max_size := by
  induction ops generalizing c with
  | nil => rfl
  | cons op rest ih =>
    simpa [run, List.foldl_cons] using
      (ih (c.step op)).trans (c.step_max_size op)

theorem LRUCache.run_length {α : Type} (c : LRUCache α) (ops : List (CacheOp α))
    (hmax : 1 ≤ c.max_size) (hlen : c.cache.length ≤ c.max_size) :
    (c.run ops).cache.length ≤ c.max_size := by
  induction ops generalizing c with
  | nil => exact hlen
  | cons op rest ih =>
    have h1 := c.step_length op hmax hlen
    have h2 := c.step_max_size op
    have h3 := ih (c.step op) (by rw [h2]; exact hmax) (by rw [h2]; exact h1)
    rw [h2] at h3
    simpa [run, List.foldl_cons] using h3

/-- The entry written by `set` sits at the most-recent end, and its key occurs
nowhere earlier in the recency list (keys assumed distinct, the `dict`
representation invariant). -/
theorem LRUCache.set_structure {α : Type} (c : LRUCache α) (k : String) (v : α)
    (now : Rat) (hnd : (c.cache.map Prod.fst).Nodup) :
    ∃ l, (c.set k v now).cache = l ++ [(k, v, now)] ∧ k ∉ l.map Prod.fst := by
  simp only [set]
  set c1 := if (lookupKey c.cache k).isSome then eraseKey c.cache k
    else c.cache with hc1
  have hmem1 : k ∉ c1.map Prod.fst := by
    rw [hc1]
    rcases h : lookupKey c.cache k with _ | v0
    · simpa [h] using (lookupKey_eq_none_iff c.cache k).mp h
    · simpa [h] using not_mem_eraseKey_of_nodup c.cache k hnd
  by_cases hfull : c.max_size ≤ c1.length
  · refine ⟨c1.drop 1, by simp [hfull], fun hk => hmem1 ?_⟩
    have : (c1.drop 1).map Prod.fst ⊆ c1.map Prod.fst :=
      ((List.drop_sublist 1 c1).map Prod.fst).subset
    exact this hk
  · exact ⟨c1, by simp [hfull], hmem1⟩

/-- C2: along every `get`/`set`/`delete`/`clear` sequence on a cache built with
capacity `N ≥ 1`, the entry count stays between `0` and `N`; and a `set` of a
fresh key on a cache holding exactly `max_size` keys removes exactly the entry
at the least-recently-used end of the recency order (the order of last
successful `get` or `set`: a hit moves its entry to the most-recent end, and
`set` places its entry at the most-recent end). -/
theorem lru_capacity_and_eviction (α : Type) (N : Int) (ttl : Option Rat)
    (c0 : LRUCache α) (hmk : LRUCache.make α N ttl = .ok c0)
    (ops : List (CacheOp α)) (c : LRUCache α) (k : String) (v : α) (now : Rat)
    (hfull : c.cache.length = c.max_size)
    (hnew : lookupKey c.cache k = none) :
    (0 ≤ (c0.run ops).size ∧ (c0.run ops).size ≤ N.toNat) ∧
    (c.set k v now).cache.map Prod.fst = (c.cache.map Prod.fst).drop 1 ++ [k] ∧
    (∀ (d : LRUCache α) (k' : String) (v' : α) (ts now' : Rat),
        lookupKey d.cache k' = some (v', ts) → d.is_expired now' ts = false →
        (d.get k' now').2.cache = eraseKey d.cache k' ++ [(k', v', ts)]) ∧
    (∀ (d : LRUCache α) (k' : String) (v' : α) (now' : Rat),
        ∃ l, (d.set k' v' now').cache = l ++ [(k', v', now')]) := by
  have hc0 : c0.max_size = N.toNat ∧ c0.cache = [] ∧ 1 ≤ N.toNat := by
    unfold LRUCache.make at hmk
    split at hmk
    · exact absurd hmk (by simp)
    · next hN =>
      refine ⟨?_, ?_, ?_⟩
      · cases hmk; rfl
      · cases hmk; rfl
      · omega
  refine ⟨⟨Nat.zero_le _, ?_⟩, ?_, ?_, ?_⟩
  · have := c0.run_length ops (hc0.1 ▸ hc0.2.2) (by simp [hc0.2.1, hc0.1])
    simpa [LRUCache.size, hc0.1] using this
  · have h1 : (if (lookupKey c.cache k).isSome then eraseKey c.cache k
        else c.cache) = c.cache := by simp [hnew]
    have h2 : c.max_size ≤ c.cache.length := le_of_eq hfull.symm
    simp [LRUCache.set, h1, h2, List.map_drop]
  · intro d k' v' ts now' hl he
    simp [LRUCache.get, hl, he]
  · intro d k' v' now'
    simp only [LRUCache.set]
    exact ⟨_, rfl⟩

theorem lru_capacity_and_eviction_witness :
    LRUCache.make Nat 2 none =
      .ok (⟨2, none, [], 0, 0⟩ : LRUCache Nat) ∧
    ((⟨2, none, [], 0, 0⟩ : LRUCache Nat).run
      [.set "a" 1 0, .set "b" 2 1, .get "a" 2, .set "c" 3 3]).size ≤ (2 : Int).toNat ∧
    ((⟨2, none, [("a", 1, 0), ("b", 2, 1)], 0, 0⟩ : LRUCache Nat).set "c" 3
      3).cache.map Prod.fst = ["b", "c"] := by
  have h := lru_capacity_and_eviction Nat 2 none ⟨2, none, [], 0, 0⟩ rfl
    [.set "a" 1 0, .set "b" 2 1, .get "a" 2, .set "c" 3 3]
    ⟨2, none, [("a", 1, 0), ("b", 2, 1)], 0, 0⟩ "c" 3 3 rfl (by decide)
  exact ⟨rfl, h.1.2, by simpa using h.2.1⟩

/-- C7: after `set(k, v)` at time `t0` on a cache with TTL `T`, `get(k)` at
time `now` returns `v` iff `now - t0 ≤ T`; on an expired entry `get` records a
miss, removes the entry and returns `None`; with no TTL configured the entry is
returned at every `now`. -/
theorem lru_ttl_semantics (α : Type) (c : LRUCache α) (k : String) (v : α)
    (t0 now : Rat) (hnd : (c.cache.map Prod.fst).Nodup) :
    (∀ T, c.ttl = some T →
      (((c.set k v t0).get k now).1 = some v ↔ now - t0 ≤ T)) ∧
    (∀ T, c.ttl = some T → T < now - t0 →
      ((c.set k v t0).get k now).1 = none ∧
      ((c.set k v t0).get k now).2.misses = (c.set k v t0).misses + 1 ∧
      lookupKey ((c.set k v t0).get k now).2.cache k = none) ∧
    (c.ttl = none → ((c.set k v t0).get k now).1 = some v) := by
  obtain ⟨l, hl, hlk⟩ := c.set_structure k v t0 hnd
  have hlook : lookupKey (c.set k v t0).cache k = some (v, t0) := by
    rw [hl, lookupKey_append_of_not_mem _ _ _ hlk]
    simp [lookupKey]
  refine ⟨?_, ?_, ?_⟩
  · intro T hT
    by_cases hle : now - t0 ≤ T
    · have he : (c.set k v t0).is_expired now t0 = false := by
        have : (c.set k v t0).ttl = some T := hT
        simp [LRUCache.is_expired, this, not_lt.mpr hle]
      simp [LRUCache.get, hlook, he, hle]
    · have he : (c.set k v t0).is_expired now t0 = true := by
        have : (c.set k v t0).ttl = some T := hT
        simp [LRUCache.is_expired, this, not_le.mp hle]
      simp [LRUCache.get, hlook, he, hle]
  · intro T hT hexp
    have he : (c.set k v t0).is_expired now t0 = true := by
      have : (c.set k v t0).ttl = some T := hT
      simp [LRUCache.is_expired, this, hexp]
    refine ⟨by simp [LRUCache.get, hlook, he], by simp [LRUCache.get, hlook, he], ?_⟩
    have hcache : ((c.set k v t0).get k now).2.cache = l := by
      have h1 : eraseKey (l ++ [(k, v, t0)]) k = l := by
        simpa using eraseKey_append_cons l [] k (v, t0) hlk
      have hlook2 : lookupKey (l ++ [(k, v, t0)]) k = some (v, t0) := by
        rw [← hl]; exact hlook
      simp [LRUCache.get, hl, hlook2, he, h1]
    rw [hcache]
    exact (lookupKey_eq_none_iff l k).mpr hlk
  · intro hT
    have he : (c.set k v t0).is_expired now t0 = false := by
      have : (c.set k v t0).ttl = none := hT
      simp [LRUCache.is_expired, this]
    simp [LRUCache.get, hlook, he]

theorem lru_ttl_semantics_witness :
    (((⟨2, some 10, [], 0, 0⟩ : LRUCache Nat).set "k" 5 0).get "k" 3).1 =
      some 5 ∧
    (((⟨2, some 10, [], 0, 0⟩ : LRUCache Nat).set "k" 5 0).get "k" 20).1 =
      none ∧
    (((⟨2, none, [], 0, 0⟩ : LRUCache Nat).set "k" 5 0).get "k" 99).1 =
      some 5 :=
  ⟨((lru_ttl_semantics Nat ⟨2, some 10, [], 0, 0⟩ "k" 5 0 3 (by decide)).1 10
      rfl).mpr (by norm_num),
   ((lru_ttl_semantics Nat ⟨2, some 10, [], 0, 0⟩ "k" 5 0 20 (by decide)).2.1 10
      rfl (by norm_num)).1,
   (lru_ttl_semantics Nat ⟨2, none, [], 0, 0⟩ "k" 5 0 99 (by decide)).2.2 rfl⟩

/-! ## Queue FIFO lemmas (C3) -/

theorem enqueueSeq_spec (es : List EnqReq) (q : MessageQueue)
    (hlen : q.fifo.length + es.length ≤ q.max_size)
    (hnd : (es.map EnqReq.task_id).Nodup) :
    (q.enqueueSeq es).fifo = q.fifo ++ es.map EnqReq.task_id ∧
    (q.enqueueSeq es).max_size = q.max_size ∧
    (∀ tid, tid ∉ es.map EnqReq.task_id →
      lookupKey (q.enqueueSeq es).tasks tid = lookupKey q.tasks tid) ∧
    (∀ e ∈ es, lookupKey (q.enqueueSeq es).tasks e.task_id = some e.task) := by
  induction es generalizing q with
  | nil => simp [MessageQueue.enqueueSeq]
  | cons e es ih =>
    simp only [List.map_cons, List.nodup_cons] at hnd
    have hroom : ¬ q.max_size ≤ q.fifo.length := by
      simp only [List.length_cons] at hlen; omega
    have hstep : q.step (.enq e.task_type e.input_data e.task_id e.now) =
        { q with fifo := q.fifo ++ [e.task_id],
                 tasks := insertKey q.tasks e.task_id e.task } := by
      simp [MessageQueue.step, MessageQueue.enqueue, hroom, EnqReq.task]
    have hlen1 : (q.fifo ++ [e.task_id]).length + es.length ≤ q.max_size := by
      simp only [List.length_append, List.length_cons, List.length_nil] at hlen ⊢
      omega
    have := ih { q with fifo := q.fifo ++ [e.task_id],
                        tasks := insertKey q.tasks e.task_id e.task }
      hlen1 hnd.2
    obtain ⟨hf, hm, hother, hmem⟩ := this
    refine ⟨?_, ?_, ?_, ?_⟩
    · simp only [MessageQueue.enqueueSeq, hstep]
      simp [hf]
    · simp only [MessageQueue.enqueueSeq, hstep]
      simpa using hm
    · intro tid htid
      simp only [List.map_cons, List.mem_cons] at htid
      push_neg at htid
      simp only [MessageQueue.enqueueSeq, hstep]
      rw [hother tid htid.2]
      exact lookupKey_insertKey_ne _ _ _ _ (Ne.symm htid.1)
    · intro e1 he1
      rcases List.mem_cons.mp he1 with he1 | he1
      · subst he1
        simp only [MessageQueue.enqueueSeq, hstep]
        rw [hother e1.task_id hnd.1]
        exact lookupKey_insertKey_self _ _ _
      · simpa [MessageQueue.enqueueSeq, hstep] using hmem e1 he1

theorem dequeueSeq_spec (es : List EnqReq) (nows : List DateTime)
    (q : MessageQueue) (hf : q.fifo = es.map EnqReq.task_id)
    (hmem : ∀ e ∈ es, lookupKey q.tasks e.task_id = some e.task)
    (hnd : (es.map EnqReq.task_id).Nodup) (hlen : nows.length = es.length) :
    (q.dequeueSeq nows).1 =
      List.zipWith (fun e now => some (e.runningAt now)) es nows := by
  induction es generalizing q nows with
  | nil =>
    cases nows with
    | nil => simp [MessageQueue.dequeueSeq]
    | cons _ _ => simp at hlen
  | cons e es ih =>
    cases nows with
    | nil => simp at hlen
    | cons now nows =>
      simp only [List.map_cons, List.nodup_cons] at hnd
      have hl := hmem e (List.mem_cons_self e es)
      have hdq : q.dequeue now =
          (some (e.runningAt now),
           { q with fifo := es.map EnqReq.task_id,
                    tasks := insertKey q.tasks e.task_id (e.runningAt now) }) := by
        simp [MessageQueue.dequeue, hf, hl, EnqReq.runningAt]
      have hmem1 : ∀ e1 ∈ es,
          lookupKey (insertKey q.tasks e.task_id (e.runningAt now))
            e1.task_id = some e1.task := by
        intro e1 he1
        have hne : e.task_id ≠ e1.task_id := by
          intro hcontra
          exact hnd.1 (hcontra ▸ List.mem_map_of_mem EnqReq.task_id he1)
        rw [lookupKey_insertKey_ne _ _ _ _ hne]
        exact hmem e1 (List.mem_cons_of_mem e he1)
      have := ih nows
        { q with fifo := es.map EnqReq.task_id,
                 tasks := insertKey q.tasks e.task_id (e.runningAt now) }
        rfl hmem1 hnd.2 (by simpa using hlen)
      simp only [MessageQueue.dequeueSeq, hdq, List.zipWith_cons_cons]
      simpa using this

/-- C3: enqueues with no intervening `mark_failed` re-enqueue are dequeued in
exactly the enqueue order: from a fresh queue, after enqueuing `e1, …, en`
(distinct minted ids, within capacity), `n` dequeues return exactly the tasks
of `e1, …, en` in that order (each marked RUNNING with its dequeue-time
`updated_at`). -/
theorem fifo_order (M : Int) (q0 : MessageQueue)
    (hmk : MessageQueue.make M = .ok q0) (es : List EnqReq)
    (nows : List DateTime) (hcap : es.length ≤ q0.max_size)
    (hnd : (es.map EnqReq.task_id).Nodup) (hlen : nows.length = es.length) :
    ((q0.enqueueSeq es).dequeueSeq nows).1 =
      List.zipWith (fun e now => some (e.runningAt now)) es nows := by
  have hq0 : q0.fifo = [] ∧ q0.tasks = [] := by
    unfold MessageQueue.make at hmk
    split at hmk
    · exact absurd hmk (by simp)
    · cases hmk; exact ⟨rfl, rfl⟩
  obtain ⟨hq0f, hq0t⟩ := hq0
  obtain ⟨hf, _, _, hmem⟩ := enqueueSeq_spec es q0 (by simpa [hq0f] using hcap) hnd
  exact dequeueSeq_spec es nows _ (by simpa [hq0f] using hf) hmem hnd hlen

theorem fifo_order_witness :
    ((MessageQueue.make 10 = .ok (⟨10, [], [], 0, 0⟩ : MessageQueue)) ∧
      (((⟨10, [], [], 0, 0⟩ : MessageQueue).enqueueSeq
        [⟨.download, [("video_url", "u1")], "t1", ⟨2024, 1, 1, 0, 0, 0, 0⟩⟩,
         ⟨.extract, [("video_path", "p")], "t2", ⟨2024, 1, 1, 0, 0, 1, 0⟩⟩]).dequeueSeq
        [⟨2024, 1, 1, 0, 1, 0, 0⟩, ⟨2024, 1, 1, 0, 2, 0, 0⟩]).1 =
        [some ⟨"t1", .download, [("video_url", "u1")], 0, 3, .running,
           ⟨2024, 1, 1, 0, 0, 0, 0⟩, ⟨2024, 1, 1, 0, 1, 0, 0⟩, none⟩,
         some ⟨"t2", .extract, [("video_path", "p")], 0, 3, .running,
           ⟨2024, 1, 1, 0, 0, 1, 0⟩, ⟨2024, 1, 1, 0, 2, 0, 0⟩, none⟩]) := by
  refine ⟨rfl, ?_⟩
  have h := fifo_order 10 ⟨10, [], [], 0, 0⟩ rfl
    [⟨.download, [("video_url", "u1")], "t1", ⟨2024, 1, 1, 0, 0, 0, 0⟩⟩,
     ⟨.extract, [("video_path", "p")], "t2", ⟨2024, 1, 1, 0, 0, 1, 0⟩⟩]
    [⟨2024, 1, 1, 0, 1, 0, 0⟩, ⟨2024, 1, 1, 0, 2, 0, 0⟩]
    (by decide) (by decide) (by decide)
  simpa [EnqReq.task] using h

/-! ## Retry-policy lemmas (C1) -/

theorem MessageQueue.run_append (q : MessageQueue) (l1 l2 : List QOp) :
    q.run (l1 ++ l2) = (q.run l1).run l2 := by
  simp [MessageQueue.run, List.foldl_append]

theorem MessageQueue.deqHits_append (q : MessageQueue) (l1 l2 : List QOp)
    (tid : String) :
    q.deqHits (l1 ++ l2) tid = q.deqHits l1 tid + (q.run l1).deqHits l2 tid := by
  induction l1 generalizing q with
  | nil => simp [MessageQueue.deqHits, MessageQueue.run]
  | cons op rest ih =>
    simp only [List.cons_append, MessageQueue.deqHits, MessageQueue.run,
      List.foldl_cons, List.append_eq] at ih ⊢
    rw [ih]
    omega

theorem failCount_append (l1 l2 : List QOp) :
    failCount (l1 ++ l2) = failCount l1 + failCount l2 := by
  simp [failCount, List.countP_append]

theorem mark_failed_requeue (q : MessageQueue) (tid msg : String)
    (now : DateTime) (t : Task) (hl : lookupKey q.tasks tid = some t)
    (hretry : t.retry_count + 1 ≤ t.max_retries)
    (hroom : ¬ q.max_size ≤ q.fifo.length) :
    (q.mark_failed tid msg now).2 =
      { q with fifo := q.fifo ++ [tid],
               tasks := insertKey q.tasks tid (t.failedWith msg now .pending) } := by
  simp [MessageQueue.mark_failed, hl, hretry, hroom, Task.failedWith]

theorem mark_failed_full (q : MessageQueue) (tid msg : String) (now : DateTime)
    (t : Task) (hl : lookupKey q.tasks tid = some t)
    (hretry : t.retry_count + 1 ≤ t.max_retries)
    (hfull : q.max_size ≤ q.fifo.length) :
    (q.mark_failed tid msg now).2 =
      { q with tasks := insertKey q.tasks tid (t.failedWith msg now .failed),
               failed_count := q.failed_count + 1 } := by
  simp [MessageQueue.mark_failed, hl, hretry, hfull, Task.failedWith]

theorem mark_failed_exhausted (q : MessageQueue) (tid msg : String)
    (now : DateTime) (t : Task) (hl : lookupKey q.tasks tid = some t)
    (hretry : ¬ t.retry_count + 1 ≤ t.max_retries) :
    (q.mark_failed tid msg now).2 =
      { q with tasks := insertKey q.tasks tid (t.failedWith msg now .failed),
               failed_count := q.failed_count + 1 } := by
  simp [MessageQueue.mark_failed, hl, hretry, Task.failedWith]

/-- Trace invariant for a single-task retry scenario: along any sequence of
dequeues and `mark_failed tid` reports, the task's `retry_count` counts the
failure reports, the channel only ever holds copies of this task, and the
number of dequeues that returned the task plus the copies still queued is
bounded by one (the original enqueue) plus one per re-enqueueing failure
report (of which at most `R - retry_count` more can re-enqueue). -/
theorem retry_aux (tid : String) (R : Nat) (ops : List QOp) :
    ∀ (q : MessageQueue) (t : Task),
    (∀ op ∈ ops, isRetryOp tid op = true) →
    lookupKey q.tasks tid = some t →
    t.task_id = tid → t.max_retries = R →
    (∀ x ∈ q.fifo, x = tid) →
    ∃ t1, lookupKey (q.run ops).tasks tid = some t1 ∧
      t1.task_id = tid ∧ t1.max_retries = R ∧
      t1.retry_count = t.retry_count + failCount ops ∧
      (∀ x ∈ (q.run ops).fifo, x = tid) ∧
      q.failed_count ≤ (q.run ops).failed_count ∧
      q.deqHits ops tid + (q.run ops).fifo.length ≤
        q.fifo.length + min (failCount ops) (R - t.retry_count) := by
  induction ops with
  | nil =>
    intro q t _ hl htid hmax hfifo
    exact ⟨t, hl, htid, hmax, by simp [failCount], hfifo, le_refl _, by
      simp [MessageQueue.deqHits, failCount, MessageQueue.run]⟩
  | cons op rest ih =>
    intro q t hall hl htid hmax hfifo
    have hop := hall op (List.mem_cons_self op rest)
    have hrest := fun o ho => hall o (List.mem_cons_of_mem op ho)
    cases op with
    | enq tt inp tid1 now => simp [isRetryOp] at hop
    | done tid1 now => simp [isRetryOp] at hop
    | deq now =>
      have hfc : failCount (QOp.deq now :: rest) = failCount rest := by
        simp [failCount]
      rcases hq : q.fifo with _ | ⟨x, fr⟩
      · have hdq : q.dequeue now = (none, q) := by
          simp [MessageQueue.dequeue, hq]
        have hstep : q.step (.deq now) = q := by
          simp [MessageQueue.step, hdq]
        obtain ⟨t1, h1, h2, h3, h4, h5, h6, h7⟩ :=
          ih q t hrest hl htid hmax hfifo
        refine ⟨t1, by simpa [MessageQueue.run, hstep] using h1, h2, h3, ?_,
          by simpa [MessageQueue.run, hstep] using h5,
          by simpa [MessageQueue.run, hstep] using h6, ?_⟩
        · rw [hfc]; exact h4
        · simp only [MessageQueue.deqHits, hdq, MessageQueue.run,
            List.foldl_cons, hstep, hfc]
          simp only [MessageQueue.run] at h7
          rw [hq] at h7
          omega
      · have hx : x = tid := hfifo x (by simp [hq])
        rw [hx] at hq
        have hdq : q.dequeue now =
            (some (t.runningAt now),
             { q with fifo := fr,
                      tasks := insertKey q.tasks tid (t.runningAt now) }) := by
          simp [MessageQueue.dequeue, hq, hl, Task.runningAt]
        have hstep : q.step (.deq now) =
            { q with fifo := fr,
                     tasks := insertKey q.tasks tid (t.runningAt now) } := by
          simp [MessageQueue.step, hdq]
        have hfr : ∀ x ∈ fr, x = tid := fun x hx =>
          hfifo x (by simp [hq, hx])
        have hrc : (t.runningAt now).retry_count = t.retry_count := rfl
        obtain ⟨t1, h1, h2, h3, h4, h5, h6, h7⟩ := ih
          { q with fifo := fr,
                   tasks := insertKey q.tasks tid (t.runningAt now) }
          (t.runningAt now) hrest (lookupKey_insertKey_self _ _ _)
          (by simp [Task.runningAt, htid]) (by simp [Task.runningAt, hmax]) hfr
        refine ⟨t1, by simpa [MessageQueue.run, hstep] using h1, h2, h3, ?_,
          by simpa [MessageQueue.run, hstep] using h5,
          by simpa [MessageQueue.run, hstep] using h6, ?_⟩
        · rw [hfc]; rw [hrc] at h4; exact h4
        · rw [hrc] at h7
          have hti : (t.runningAt now).task_id = tid := htid
          simp only [MessageQueue.deqHits, hdq, MessageQueue.run,
            List.foldl_cons, hstep, hfc, hti, eq_self_iff_true, if_true]
          simp only [MessageQueue.run] at h7
          simp only [hq, List.length_cons]
          omega
    | fail tid1 msg now =>
      have htid1 : tid1 = tid := by simpa [isRetryOp] using hop
      rw [htid1]
      have hfc : failCount (QOp.fail tid msg now :: rest) =
          failCount rest + 1 := by simp [failCount]
      by_cases hretry : t.retry_count + 1 ≤ t.max_retries
      · by_cases hfull : q.max_size ≤ q.fifo.length
        · have hmf := mark_failed_full q tid msg now t hl hretry hfull
          have hstep : q.step (.fail tid msg now) =
              { q with tasks := insertKey q.tasks tid
                         (t.failedWith msg now .failed),
                       failed_count := q.failed_count + 1 } := by
            simp [MessageQueue.step, hmf]
          have hrc : (t.failedWith msg now .failed).retry_count =
              t.retry_count + 1 := rfl
          obtain ⟨t2, h1, h2, h3, h4, h5, h6, h7⟩ := ih
            { q with tasks := insertKey q.tasks tid
                       (t.failedWith msg now .failed),
                     failed_count := q.failed_count + 1 }
            (t.failedWith msg now .failed) hrest
            (lookupKey_insertKey_self _ _ _)
            (by simp [Task.failedWith, htid]) (by simp [Task.failedWith, hmax])
            hfifo
          refine ⟨t2, by simpa [MessageQueue.run, hstep] using h1, h2, h3, ?_,
            by simpa [MessageQueue.run, hstep] using h5, ?_, ?_⟩
          · rw [hfc]; rw [hrc] at h4; omega
          · simp only [MessageQueue.run, List.foldl_cons, hstep] at h6 ⊢
            omega
          · rw [hrc] at h7
            simp only [MessageQueue.deqHits, MessageQueue.run, List.foldl_cons,
              hstep, hfc] at h7 ⊢
            have hRc : t.retry_count + 1 ≤ R := hmax ▸ hretry
            omega
        · have hmf := mark_failed_requeue q tid msg now t hl hretry hfull
          have hstep : q.step (.fail tid msg now) =
              { q with fifo := q.fifo ++ [tid],
                       tasks := insertKey q.tasks tid
                         (t.failedWith msg now .pending) } := by
            simp [MessageQueue.step, hmf]
          have hrc : (t.failedWith msg now .pending).retry_count =
              t.retry_count + 1 := rfl
          have hfifo1 : ∀ x ∈ q.fifo ++ [tid], x = tid := by
            intro x hx
            rcases List.mem_append.mp hx with hx | hx
            · exact hfifo x hx
            · simpa using hx
          obtain ⟨t2, h1, h2, h3, h4, h5, h6, h7⟩ := ih
            { q with fifo := q.fifo ++ [tid],
                     tasks := insertKey q.tasks tid
                       (t.failedWith msg now .pending) }
            (t.failedWith msg now .pending) hrest
            (lookupKey_insertKey_self _ _ _)
            (by simp [Task.failedWith, htid]) (by simp [Task.failedWith, hmax])
            hfifo1
          refine ⟨t2, by simpa [MessageQueue.run, hstep] using h1, h2, h3, ?_,
            by simpa [MessageQueue.run, hstep] using h5, ?_, ?_⟩
          · rw [hfc]; rw [hrc] at h4; omega
          · simp only [MessageQueue.run, List.foldl_cons, hstep] at h6 ⊢
            omega
          · rw [hrc] at h7
            simp only [MessageQueue.deqHits, MessageQueue.run, List.foldl_cons,
              hstep, hfc] at h7 ⊢
            simp only [List.length_append, List.length_cons, List.length_nil]
              at h7
            have hRc : t.retry_count + 1 ≤ R := hmax ▸ hretry
            omega
      · have hmf := mark_failed_exhausted q tid msg now t hl hretry
        have hstep : q.step (.fail tid msg now) =
            { q with tasks := insertKey q.tasks tid
                       (t.failedWith msg now .failed),
                     failed_count := q.failed_count + 1 } := by
          simp [MessageQueue.step, hmf]
        have hrc : (t.failedWith msg now .failed).retry_count =
            t.retry_count + 1 := rfl
        obtain ⟨t2, h1, h2, h3, h4, h5, h6, h7⟩ := ih
          { q with tasks := insertKey q.tasks tid
                     (t.failedWith msg now .failed),
                   failed_count := q.failed_count + 1 }
          (t.failedWith msg now .failed) hrest
          (lookupKey_insertKey_self _ _ _)
          (by simp [Task.failedWith, htid]) (by simp [Task.failedWith, hmax])
          hfifo
        refine ⟨t2, by simpa [MessageQueue.run, hstep] using h1, h2, h3, ?_,
          by simpa [MessageQueue.run, hstep] using h5, ?_, ?_⟩
        · rw [hfc]; rw [hrc] at h4; omega
        · simp only [MessageQueue.run, List.foldl_cons, hstep] at h6 ⊢
          omega
        · rw [hrc] at h7
          simp only [MessageQueue.deqHits, MessageQueue.run, List.foldl_cons,
            hstep, hfc] at h7 ⊢
          have hRc : ¬ t.retry_count + 1 ≤ R := fun hcontra =>
            hretry (hmax ▸ hcontra)
          omega

/-- C1: each `mark_failed` on a registered task increments its `retry_count`
by one and re-enqueues it with status PENDING exactly when the incremented
count is `≤ max_retries` and the re-push finds room (a re-push onto a full
channel yields FAILED and increments the failed counter, as does an exhausted
count); and for a freshly enqueued task with `max_retries = R`, after `R + 1`
`mark_failed` reports interleaved with dequeues (the last report closing the
sequence) the task is FAILED with `retry_count = R + 1`, the failed counter
has been incremented, and the task was returned by at most `R + 1` successful
dequeues. -/
theorem queue_retry_policy (M R : Nat) (tid msg : String) (tt : TaskType)
    (inp : List (String × String)) (d0 nowL : DateTime) (init : List QOp)
    (hall : ∀ op ∈ init, isRetryOp tid op = true)
    (hfails : failCount init = R) :
    (∀ (q : MessageQueue) (t : Task) (m : String) (dn : DateTime),
      lookupKey q.tasks tid = some t →
      ∃ t2, lookupKey (q.mark_failed tid m dn).2.tasks tid = some t2 ∧
        t2.retry_count = t.retry_count + 1 ∧
        ((q.mark_failed tid m dn).2.fifo = q.fifo ++ [tid] ↔
          t.retry_count + 1 ≤ t.max_retries ∧ q.fifo.length < q.max_size) ∧
        (t.retry_count + 1 ≤ t.max_retries → q.fifo.length < q.max_size →
          t2.status = TaskStatus.pending) ∧
        (t.retry_count + 1 ≤ t.max_retries → q.max_size ≤ q.fifo.length →
          t2.status = TaskStatus.failed ∧
          (q.mark_failed tid m dn).2.failed_count = q.failed_count + 1) ∧
        (t.max_retries < t.retry_count + 1 →
          t2.status = TaskStatus.failed ∧
          (q.mark_failed tid m dn).2.failed_count = q.failed_count + 1)) ∧
    (∃ t1, lookupKey ((retryScenarioQueue M R tid tt inp d0).run
        (init ++ [QOp.fail tid msg nowL])).tasks tid = some t1 ∧
      t1.status = TaskStatus.failed ∧ t1.retry_count = R + 1) ∧
    1 ≤ ((retryScenarioQueue M R tid tt inp d0).run
        (init ++ [QOp.fail tid msg nowL])).failed_count ∧
    (retryScenarioQueue M R tid tt inp d0).deqHits
        (init ++ [QOp.fail tid msg nowL]) tid ≤ R + 1 := by
  have hstepchar : ∀ (q : MessageQueue) (t : Task) (m : String) (dn : DateTime),
      lookupKey q.tasks tid = some t →
      ∃ t2, lookupKey (q.mark_failed tid m dn).2.tasks tid = some t2 ∧
        t2.retry_count = t.retry_count + 1 ∧
        ((q.mark_failed tid m dn).2.fifo = q.fifo ++ [tid] ↔
          t.retry_count + 1 ≤ t.max_retries ∧ q.fifo.length < q.max_size) ∧
        (t.retry_count + 1 ≤ t.max_retries → q.fifo.length < q.max_size →
          t2.status = TaskStatus.pending) ∧
        (t.retry_count + 1 ≤ t.max_retries → q.max_size ≤ q.fifo.length →
          t2.status = TaskStatus.failed ∧
          (q.mark_failed tid m dn).2.failed_count = q.failed_count + 1) ∧
        (t.max_retries < t.retry_count + 1 →
          t2.status = TaskStatus.failed ∧
          (q.mark_failed tid m dn).2.failed_count = q.failed_count + 1) := by
    intro q t m dn hl
    by_cases hretry : t.retry_count + 1 ≤ t.max_retries
    · by_cases hfull : q.max_size ≤ q.fifo.length
      · have hmf := mark_failed_full q tid m dn t hl hretry hfull
        refine ⟨t.failedWith m dn .failed, ?_, rfl, ?_, ?_, ?_, ?_⟩
        · rw [hmf]; exact lookupKey_insertKey_self _ _ _
        · rw [hmf]
          constructor
          · intro hcontra
            have := congrArg List.length hcontra
            simp at this
          · intro hcontra
            omega
        · intro _ hroom; omega
        · intro _ _
          refine ⟨rfl, ?_⟩
          rw [hmf]
        · intro hcontra; omega
      · have hmf := mark_failed_requeue q tid m dn t hl hretry hfull
        refine ⟨t.failedWith m dn .pending, ?_, rfl, ?_, ?_, ?_, ?_⟩
        · rw [hmf]; exact lookupKey_insertKey_self _ _ _
        · rw [hmf]
          simp only [true_iff]
          exact ⟨hretry, by omega⟩
        · intro _ _; rfl
        · intro _ hcontra; omega
        · intro hcontra; omega
    · have hmf := mark_failed_exhausted q tid m dn t hl hretry
      refine ⟨t.failedWith m dn .failed, ?_, rfl, ?_, ?_, ?_, ?_⟩
      · rw [hmf]; exact lookupKey_insertKey_self _ _ _
      · rw [hmf]
        constructor
        · intro hcontra
          have := congrArg List.length hcontra
          simp at this
        · intro hcontra
          exact absurd hcontra.1 hretry
      · intro hcontra; exact absurd hcontra hretry
      · intro hcontra; exact absurd hcontra hretry
      · intro _
        refine ⟨rfl, ?_⟩
        rw [hmf]
  refine ⟨hstepchar, ?_⟩
  have hlook : lookupKey (retryScenarioQueue M R tid tt inp d0).tasks tid =
      some ⟨tid, tt, inp, 0, R, .pending, d0, d0, none⟩ := by
    simp [retryScenarioQueue, lookupKey]
  obtain ⟨t1, h1, h2, h3, h4, h5, h6, h7⟩ :=
    retry_aux tid R init (retryScenarioQueue M R tid tt inp d0)
      ⟨tid, tt, inp, 0, R, .pending, d0, d0, none⟩ hall hlook rfl rfl
      (by simp [retryScenarioQueue])
  have hretry1 : t1.retry_count = R := by
    simpa [hfails] using h4
  have hnotle : ¬ t1.retry_count + 1 ≤ t1.max_retries := by
    rw [hretry1, h3]; omega
  have hmf := mark_failed_exhausted ((retryScenarioQueue M R tid tt inp d0).run init)
    tid msg nowL t1 h1 hnotle
  have hrun : (retryScenarioQueue M R tid tt inp d0).run
      (init ++ [QOp.fail tid msg nowL]) =
      ((retryScenarioQueue M R tid tt inp d0).run init).step
        (.fail tid msg nowL) := by
    rw [MessageQueue.run_append]
    simp [MessageQueue.run]
  have hstepf : ((retryScenarioQueue M R tid tt inp d0).run init).step
      (.fail tid msg nowL) = (((retryScenarioQueue M R tid tt inp d0).run
        init).mark_failed tid msg nowL).2 := by
    simp [MessageQueue.step]
  refine ⟨⟨t1.failedWith msg nowL .failed, ?_, rfl, ?_⟩, ?_, ?_⟩
  · rw [hrun, hstepf, hmf]
    exact lookupKey_insertKey_self _ _ _
  · simp [Task.failedWith, hretry1]
  · rw [hrun, hstepf, hmf]
    simp
  · rw [MessageQueue.deqHits_append]
    have hlast : ((retryScenarioQueue M R tid tt inp d0).run init).deqHits
        [QOp.fail tid msg nowL] tid = 0 := by
      simp [MessageQueue.deqHits]
    rw [hlast]
    have hbase : (retryScenarioQueue M R tid tt inp d0).fifo.length = 1 := by
      simp [retryScenarioQueue]
    rw [hbase, hfails] at h7
    simp only [Nat.sub_zero, Nat.min_self] at h7
    omega

theorem queue_retry_policy_witness :
    ∃ t1, lookupKey ((retryScenarioQueue 2 1 "t" .download []
        ⟨2024, 1, 1, 0, 0, 0, 0⟩).run
        ([QOp.deq ⟨2024, 1, 1, 0, 0, 0, 0⟩,
          QOp.fail "t" "e" ⟨2024, 1, 1, 0, 0, 0, 0⟩,
          QOp.deq ⟨2024, 1, 1, 0, 0, 0, 0⟩] ++
         [QOp.fail "t" "e" ⟨2024, 1, 1, 0, 0, 0, 0⟩])).tasks "t" = some t1 ∧
      t1.status = TaskStatus.failed ∧ t1.retry_count = 1 + 1 :=
  (queue_retry_policy 2 1 "t" "e" .download [] ⟨2024, 1, 1, 0, 0, 0, 0⟩
    ⟨2024, 1, 1, 0, 0, 0, 0⟩
    [QOp.deq ⟨2024, 1, 1, 0, 0, 0, 0⟩,
     QOp.fail "t" "e" ⟨2024, 1, 1, 0, 0, 0, 0⟩,
     QOp.deq ⟨2024, 1, 1, 0, 0, 0, 0⟩] (by decide) (by decide)).2.1

/-! ## Disciplined-queue invariant (C6) -/

theorem countStr_append (l1 l2 : List String) (s : String) :
    countStr (l1 ++ l2) s = countStr l1 s + countStr l2 s := by
  induction l1 with
  | nil => simp [countStr]
  | cons x rest ih => simp [countStr, ih]; omega

theorem countStr_eq_zero_of_not_mem {l : List String} {s : String}
    (h : s ∉ l) : countStr l s = 0 := by
  induction l with
  | nil => rfl
  | cons x rest ih =>
    simp only [List.mem_cons] at h
    push_neg at h
    simp [countStr, Ne.symm h.1, ih h.2]

theorem countStr_pos_of_mem {l : List String} {s : String} (h : s ∈ l) :
    0 < countStr l s := by
  induction l with
  | nil => simp at h
  | cons x rest ih =>
    rcases List.mem_cons.mp h with h1 | h1
    · simp [countStr, h1.symm]
    · have := ih h1
      simp only [countStr]
      omega

theorem lookupKey_insertKey_cases {α : Type} (m : List (String × α))
    (k tid : String) (v t : α) (h : lookupKey (insertKey m k v) tid = some t) :
    (tid = k ∧ t = v) ∨ (tid ≠ k ∧ lookupKey m tid = some t) := by
  by_cases he : tid = k
  · subst he
    rw [lookupKey_insertKey_self] at h
    exact Or.inl ⟨rfl, (Option.some_inj.mp h).symm⟩
  · rw [lookupKey_insertKey_ne _ _ _ _ (Ne.symm he)] at h
    exact Or.inr ⟨he, h⟩

theorem mark_failed_lookup_ne (q : MessageQueue) (tid1 msg : String)
    (now : DateTime) (tid : String) (hne : tid ≠ tid1) :
    lookupKey (q.mark_failed tid1 msg now).2.tasks tid =
      lookupKey q.tasks tid := by
  unfold MessageQueue.mark_failed
  rcases ht : lookupKey q.tasks tid1 with _ | t
  · rfl
  · by_cases h1 : t.retry_count + 1 ≤ t.max_retries
    · by_cases h2 : q.max_size ≤ q.fifo.length
      · simp [h1, h2, lookupKey_insertKey_ne _ _ _ _ (Ne.symm hne)]
      · simp [h1, h2, lookupKey_insertKey_ne _ _ _ _ (Ne.symm hne)]
    · simp [h1, lookupKey_insertKey_ne _ _ _ _ (Ne.symm hne)]

theorem qinv_step (q : MessageQueue) (op : QOp) (hinv : QInv q)
    (hok : okOp q op = true) : QInv (q.step op) := by
  obtain ⟨hA, hB⟩ := hinv
  cases op with
  | enq tt inp tid1 now =>
    simp only [okOp, Option.isNone_iff_eq_none] at hok
    by_cases hfull : q.max_size ≤ q.fifo.length
    · have hstep : q.step (.enq tt inp tid1 now) = q := by
        simp [MessageQueue.step, MessageQueue.enqueue, hfull]
      rw [hstep]; exact ⟨hA, hB⟩
    · have hstep : q.step (.enq tt inp tid1 now) =
          { q with fifo := q.fifo ++ [tid1],
                   tasks := insertKey q.tasks tid1
                     ⟨tid1, tt, inp, 0, 3, .pending, now, now, none⟩ } := by
        simp [MessageQueue.step, MessageQueue.enqueue, hfull]
      rw [hstep]
      have hnotmem : tid1 ∉ q.fifo := by
        intro hmem
        obtain ⟨t, ht⟩ := hA tid1 hmem
        rw [hok] at ht
        exact Option.noConfusion ht
      constructor
      · intro x hx
        rcases List.mem_append.mp hx with hx | hx
        · obtain ⟨t, ht⟩ := hA x hx
          have hne : tid1 ≠ x := by
            intro he; rw [← he, hok] at ht; exact Option.noConfusion ht
          exact ⟨t, by rw [lookupKey_insertKey_ne _ _ _ _ hne]; exact ht⟩
        · have hx1 : x = tid1 := by simpa using hx
          subst hx1
          exact ⟨_, lookupKey_insertKey_self _ _ _⟩
      · intro tid t hl
        rcases lookupKey_insertKey_cases _ _ _ _ _ hl with ⟨he, hv⟩ | ⟨hne, hold⟩
        · subst he
          subst hv
          have hcnt : countStr (q.fifo ++ [tid]) tid = 1 := by
            rw [countStr_append, countStr_eq_zero_of_not_mem hnotmem]
            simp [countStr]
          refine ⟨le_of_eq hcnt, ?_, ?_, ?_, ?_⟩
          · intro hdisj
            rcases hdisj with h | h <;> simp at h
          · intro _; exact Nat.zero_le _
          · exact Nat.zero_le _
          · intro h; simp at h
        · have hcnt : countStr (q.fifo ++ [tid1]) tid = countStr q.fifo tid := by
            rw [countStr_append]
            simp [countStr, Ne.symm hne]
          obtain ⟨c1, c2, c3, c4, c5⟩ := hB tid t hold
          refine ⟨hcnt ▸ c1, fun hd => hcnt ▸ c2 hd, ?_, c4, c5⟩
          intro hmem
          rcases List.mem_append.mp hmem with hm | hm
          · exact c3 hm
          · exact absurd (by simpa using hm) hne
  | deq now =>
    rcases hq : q.fifo with _ | ⟨hd, rest⟩
    · have hstep : q.step (.deq now) = q := by
        simp [MessageQueue.step, MessageQueue.dequeue, hq]
      rw [hstep]
      refine ⟨?_, ?_⟩
      · intro x hx; exact hA x (by rw [hq] at hx; exact absurd hx (by simp))
      · intro tid t hl
        obtain ⟨c1, c2, c3, c4, c5⟩ := hB tid t hl
        exact ⟨c1, c2, c3, c4, c5⟩
    · obtain ⟨t, ht⟩ := hA hd (by rw [hq]; exact List.mem_cons_self _ _)
      have hstep : q.step (.deq now) =
          { q with fifo := rest,
                   tasks := insertKey q.tasks hd (t.runningAt now) } := by
        simp [MessageQueue.step, MessageQueue.dequeue, hq, ht, Task.runningAt]
      rw [hstep]
      obtain ⟨b1, b2, b3, b4, b5⟩ := hB hd t ht
      have hcq : countStr q.fifo hd = 1 + countStr rest hd := by
        rw [hq]; simp [countStr]
      have hcr : countStr rest hd = 0 := by omega
      constructor
      · intro x hx
        have hxf : x ∈ q.fifo := by rw [hq]; exact List.mem_cons_of_mem _ hx
        obtain ⟨t1, ht1⟩ := hA x hxf
        by_cases he : x = hd
        · subst he; exact ⟨_, lookupKey_insertKey_self _ _ _⟩
        · exact ⟨t1, by rw [lookupKey_insertKey_ne _ _ _ _ (Ne.symm he)]; exact ht1⟩
      · intro tid t2 hl
        rcases lookupKey_insertKey_cases _ _ _ _ _ hl with ⟨he, hv⟩ | ⟨hne, hold⟩
        · subst he
          subst hv
          have hretmax : t.retry_count ≤ t.max_retries :=
            b3 (by rw [hq]; exact List.mem_cons_self _ _)
          refine ⟨by simp [hcr], fun _ => hcr, ?_, ?_, ?_⟩
          · intro hmem
            exact absurd (countStr_pos_of_mem hmem) (by simp [hcr])
          · exact b4
          · intro hlt
            have hr1 : (t.runningAt now).retry_count = t.retry_count := rfl
            have hr2 : (t.runningAt now).max_retries = t.max_retries := rfl
            rw [hr1, hr2] at hlt
            exact absurd hlt (by omega)
        · obtain ⟨c1, c2, c3, c4, c5⟩ := hB tid t2 hold
          have hcnt : countStr q.fifo tid = countStr rest tid := by
            rw [hq]; simp [countStr, Ne.symm hne]
          refine ⟨hcnt ▸ c1, fun hd1 => hcnt ▸ c2 hd1, ?_, c4, c5⟩
          intro hmem
          exact c3 (by rw [hq]; exact List.mem_cons_of_mem _ hmem)
  | done tid1 now =>
    rcases ht : lookupKey q.tasks tid1 with _ | t
    · have hstep : q.step (.done tid1 now) = q := by
        simp [MessageQueue.step, MessageQueue.mark_completed, ht]
      rw [hstep]; exact ⟨hA, hB⟩
    · simp only [okOp, ht] at hok
      have hnf : t.status ≠ TaskStatus.failed := of_decide_eq_true hok
      have hstep : q.step (.done tid1 now) =
          { q with tasks := insertKey q.tasks tid1 (t.completedAt now),
                   completed_count := q.completed_count + 1 } := by
        simp [MessageQueue.step, MessageQueue.mark_completed, ht,
          Task.completedAt]
      rw [hstep]
      obtain ⟨b1, b2, b3, b4, b5⟩ := hB tid1 t ht
      constructor
      · intro x hx
        obtain ⟨t1, ht1⟩ := hA x hx
        by_cases he : x = tid1
        · subst he; exact ⟨_, lookupKey_insertKey_self _ _ _⟩
        · exact ⟨t1, by rw [lookupKey_insertKey_ne _ _ _ _ (Ne.symm he)]; exact ht1⟩
      · intro tid t2 hl
        rcases lookupKey_insertKey_cases _ _ _ _ _ hl with ⟨he, hv⟩ | ⟨hne, hold⟩
        · subst he
          subst hv
          refine ⟨b1, ?_, b3, b4, ?_⟩
          · intro hdisj
            rcases hdisj with h | h <;> simp [Task.completedAt] at h
          · intro hlt
            exact absurd (b5 hlt) hnf
        · exact hB tid t2 hold
  | fail tid1 msg now =>
    rcases ht : lookupKey q.tasks tid1 with _ | t
    · have hstep : q.step (.fail tid1 msg now) = q := by
        simp [MessageQueue.step, MessageQueue.mark_failed, ht]
      rw [hstep]; exact ⟨hA, hB⟩
    · simp only [okOp, ht] at hok
      have hrun : t.status = TaskStatus.running := of_decide_eq_true hok
      obtain ⟨b1, b2, b3, b4, b5⟩ := hB tid1 t ht
      have hc0 : countStr q.fifo tid1 = 0 := b2 (Or.inl hrun)
      have hnotmem : tid1 ∉ q.fifo := by
        intro hmem
        have := countStr_pos_of_mem hmem
        omega
      have hrle : t.retry_count ≤ t.max_retries := by
        by_contra hlt
        push_neg at hlt
        have hst := b5 hlt
        rw [hrun] at hst
        exact TaskStatus.noConfusion hst
      by_cases hretry : t.retry_count + 1 ≤ t.max_retries
      · by_cases hfull : q.max_size ≤ q.fifo.length
        · have hstep : q.step (.fail tid1 msg now) =
              { q with tasks := insertKey q.tasks tid1
                         (t.failedWith msg now .failed),
                       failed_count := q.failed_count + 1 } := by
            rw [MessageQueue.step, mark_failed_full q tid1 msg now t ht hretry hfull]
          rw [hstep]
          constructor
          · intro x hx
            obtain ⟨t1, ht1⟩ := hA x hx
            by_cases he : x = tid1
            · subst he; exact ⟨_, lookupKey_insertKey_self _ _ _⟩
            · exact ⟨t1, by rw [lookupKey_insertKey_ne _ _ _ _ (Ne.symm he)]; exact ht1⟩
          · intro tid t2 hl
            rcases lookupKey_insertKey_cases _ _ _ _ _ hl with ⟨he, hv⟩ | ⟨hne, hold⟩
            · subst he
              subst hv
              refine ⟨by simp [hc0], fun _ => hc0, ?_, ?_, ?_⟩
              · intro hmem; exact absurd hmem hnotmem
              · have hr1 : (t.failedWith msg now .failed).retry_count =
                    t.retry_count + 1 := rfl
                have hr2 : (t.failedWith msg now .failed).max_retries =
                    t.max_retries := rfl
                rw [hr1, hr2]
                omega
              · intro _; rfl
            · exact hB tid t2 hold
        · have hstep : q.step (.fail tid1 msg now) =
              { q with fifo := q.fifo ++ [tid1],
                       tasks := insertKey q.tasks tid1
                         (t.failedWith msg now .pending) } := by
            rw [MessageQueue.step, mark_failed_requeue q tid1 msg now t ht hretry hfull]
          rw [hstep]
          constructor
          · intro x hx
            rcases List.mem_append.mp hx with hx | hx
            · obtain ⟨t1, ht1⟩ := hA x hx
              by_cases he : x = tid1
              · subst he; exact ⟨_, lookupKey_insertKey_self _ _ _⟩
              · exact ⟨t1, by rw [lookupKey_insertKey_ne _ _ _ _ (Ne.symm he)]; exact ht1⟩
            · have hx1 : x = tid1 := by simpa using hx
              subst hx1
              exact ⟨_, lookupKey_insertKey_self _ _ _⟩
          · intro tid t2 hl
            rcases lookupKey_insertKey_cases _ _ _ _ _ hl with ⟨he, hv⟩ | ⟨hne, hold⟩
            · subst he
              subst hv
              have hcnt : countStr (q.fifo ++ [tid]) tid = 1 := by
                rw [countStr_append, hc0]
                simp [countStr]
              refine ⟨le_of_eq hcnt, ?_, ?_, ?_, ?_⟩
              · intro hdisj
                rcases hdisj with h | h <;> simp [Task.failedWith] at h
              · intro _
                have hr1 : (t.failedWith msg now .pending).retry_count =
                    t.retry_count + 1 := rfl
                have hr2 : (t.failedWith msg now .pending).max_retries =
                    t.max_retries := rfl
                rw [hr1, hr2]
                exact hretry
              · have hr1 : (t.failedWith msg now .pending).retry_count =
                    t.retry_count + 1 := rfl
                have hr2 : (t.failedWith msg now .pending).max_retries =
                    t.max_retries := rfl
                rw [hr1, hr2]
                omega
              · intro hlt
                have hr1 : (t.failedWith msg now .pending).retry_count =
                    t.retry_count + 1 := rfl
                have hr2 : (t.failedWith msg now .pending).max_retries =
                    t.max_retries := rfl
                rw [hr1, hr2] at hlt
                exact absurd hlt (by omega)
            · obtain ⟨c1, c2, c3, c4, c5⟩ := hB tid t2 hold
              have hcnt : countStr (q.fifo ++ [tid1]) tid =
                  countStr q.fifo tid := by
                rw [countStr_append]
                simp [countStr, Ne.symm hne]
              refine ⟨hcnt ▸ c1, fun hd1 => hcnt ▸ c2 hd1, ?_, c4, c5⟩
              intro hmem
              rcases List.mem_append.mp hmem with hm | hm
              · exact c3 hm
              · exact absurd (by simpa using hm) hne
      · have hstep : q.step (.fail tid1 msg now) =
            { q with tasks := insertKey q.tasks tid1
                       (t.failedWith msg now .failed),
                     failed_count := q.failed_count + 1 } := by
          rw [MessageQueue.step, mark_failed_exhausted q tid1 msg now t ht hretry]
        rw [hstep]
        constructor
        · intro x hx
          obtain ⟨t1, ht1⟩ := hA x hx
          by_cases he : x = tid1
          · subst he; exact ⟨_, lookupKey_insertKey_self _ _ _⟩
          · exact ⟨t1, by rw [lookupKey_insertKey_ne _ _ _ _ (Ne.symm he)]; exact ht1⟩
        · intro tid t2 hl
          rcases lookupKey_insertKey_cases _ _ _ _ _ hl with ⟨he, hv⟩ | ⟨hne, hold⟩
          · subst he
            subst hv
            refine ⟨by simp [hc0], fun _ => hc0, ?_, ?_, ?_⟩
            · intro hmem; exact absurd hmem hnotmem
            · have hr1 : (t.failedWith msg now .failed).retry_count =
                  t.retry_count + 1 := rfl
              have hr2 : (t.failedWith msg now .failed).max_retries =
                  t.max_retries := rfl
              rw [hr1, hr2]
              omega
            · intro _; rfl
          · exact hB tid t2 hold

theorem failed_stable_step (q : MessageQueue) (op : QOp) (hinv : QInv q)
    (hok : okOp q op = true) (tid : String) (t : Task)
    (hl : lookupKey q.tasks tid = some t)
    (hf : t.status = TaskStatus.failed) :
    ∃ t1, lookupKey (q.step op).tasks tid = some t1 ∧
      t1.status = TaskStatus.failed := by
  obtain ⟨hA, hB⟩ := hinv
  cases op with
  | enq tt inp tid1 now =>
    simp only [okOp, Option.isNone_iff_eq_none] at hok
    have hne : tid ≠ tid1 := by
      intro he; rw [he, hok] at hl; exact Option.noConfusion hl
    by_cases hfull : q.max_size ≤ q.fifo.length
    · have hstep : q.step (.enq tt inp tid1 now) = q := by
        simp [MessageQueue.step, MessageQueue.enqueue, hfull]
      rw [hstep]; exact ⟨t, hl, hf⟩
    · have hstep : q.step (.enq tt inp tid1 now) =
          { q with fifo := q.fifo ++ [tid1],
                   tasks := insertKey q.tasks tid1
                     ⟨tid1, tt, inp, 0, 3, .pending, now, now, none⟩ } := by
        simp [MessageQueue.step, MessageQueue.enqueue, hfull]
      rw [hstep]
      exact ⟨t, (lookupKey_insertKey_ne _ _ _ _ (Ne.symm hne)).trans hl, hf⟩
  | deq now =>
    rcases hq : q.fifo with _ | ⟨hd, rest⟩
    · have hstep : q.step (.deq now) = q := by
        simp [MessageQueue.step, MessageQueue.dequeue, hq]
      rw [hstep]; exact ⟨t, hl, hf⟩
    · obtain ⟨thd, hthd⟩ := hA hd (by rw [hq]; exact List.mem_cons_self _ _)
      have hne : hd ≠ tid := by
        intro he
        subst he
        obtain ⟨b1, b2, b3, b4, b5⟩ := hB hd t hl
        have := b2 (Or.inr hf)
        have hpos : 0 < countStr q.fifo hd := by
          rw [hq]; simp [countStr]
        omega
      have hstep : q.step (.deq now) =
          { q with fifo := rest,
                   tasks := insertKey q.tasks hd (thd.runningAt now) } := by
        simp [MessageQueue.step, MessageQueue.dequeue, hq, hthd, Task.runningAt]
      rw [hstep]
      exact ⟨t, by
        rw [lookupKey_insertKey_ne _ _ _ _ hne]
        exact hl, hf⟩
  | done tid1 now =>
    rcases ht : lookupKey q.tasks tid1 with _ | t1
    · have hstep : q.step (.done tid1 now) = q := by
        simp [MessageQueue.step, MessageQueue.mark_completed, ht]
      rw [hstep]; exact ⟨t, hl, hf⟩
    · simp only [okOp, ht] at hok
      have hnf : t1.status ≠ TaskStatus.failed := of_decide_eq_true hok
      have hne : tid1 ≠ tid := by
        intro he
        subst he
        rw [hl] at ht
        cases ht
        exact hnf hf
      have hstep : q.step (.done tid1 now) =
          { q with tasks := insertKey q.tasks tid1 (t1.completedAt now),
                   completed_count := q.completed_count + 1 } := by
        simp [MessageQueue.step, MessageQueue.mark_completed, ht,
          Task.completedAt]
      rw [hstep]
      exact ⟨t, by
        rw [lookupKey_insertKey_ne _ _ _ _ hne]
        exact hl, hf⟩
  | fail tid1 msg now =>
    rcases ht : lookupKey q.tasks tid1 with _ | t1
    · have hstep : q.step (.fail tid1 msg now) = q := by
        simp [MessageQueue.step, MessageQueue.mark_failed, ht]
      rw [hstep]; exact ⟨t, hl, hf⟩
    · simp only [okOp, ht] at hok
      have hrun : t1.status = TaskStatus.running := of_decide_eq_true hok
      have hne : tid ≠ tid1 := by
        intro he
        subst he
        rw [hl] at ht
        cases ht
        rw [hf] at hrun
        exact TaskStatus.noConfusion hrun
      refine ⟨t, ?_, hf⟩
      simp only [MessageQueue.step]
      rw [mark_failed_lookup_ne q tid1 msg now tid hne]
      exact hl

theorem qinv_run (ops : List QOp) : ∀ q : MessageQueue, QInv q →
    Disciplined q ops = true → QInv (q.run ops) := by
  induction ops with
  | nil => intro q hinv _; exact hinv
  | cons op rest ih =>
    intro q hinv hd
    simp only [Disciplined, Bool.and_eq_true] at hd
    have h1 := qinv_step q op hinv hd.1
    simpa [MessageQueue.run] using ih (q.step op) h1 hd.2

theorem failed_stable_run (ops : List QOp) : ∀ q : MessageQueue, QInv q →
    Disciplined q ops = true → ∀ (tid : String) (t : Task),
    lookupKey q.tasks tid = some t → t.status = TaskStatus.failed →
    ∃ t1, lookupKey (q.run ops).tasks tid = some t1 ∧
      t1.status = TaskStatus.failed := by
  induction ops with
  | nil => intro q _ _ tid t hl hf; exact ⟨t, hl, hf⟩
  | cons op rest ih =>
    intro q hinv hd tid t hl hf
    simp only [Disciplined, Bool.and_eq_true] at hd
    obtain ⟨t1, h1, h2⟩ := failed_stable_step q op hinv hd.1 tid t hl hf
    have hinv1 := qinv_step q op hinv hd.1
    simpa [MessageQueue.run] using ih (q.step op) hinv1 hd.2 tid t1 h1 h2

theorem disciplined_append (l1 l2 : List QOp) : ∀ q : MessageQueue,
    Disciplined q (l1 ++ l2) = true →
    Disciplined q l1 = true ∧ Disciplined (q.run l1) l2 = true := by
  induction l1 with
  | nil => intro q h; exact ⟨rfl, h⟩
  | cons op rest ih =>
    intro q h
    simp only [List.cons_append, Disciplined, Bool.and_eq_true] at h
    obtain ⟨h1, h2⟩ := ih (q.step op) h.2
    refine ⟨?_, by simpa [MessageQueue.run] using h2⟩
    simp [Disciplined, h.1, h1]

/-- C6 counterexample: with the real `enqueue` defaults (`max_retries = 3`),
the operation sequence "enqueue once, then report failure five times" drives
`retry_count` to `5 > max_retries + 1 = 4` — `mark_failed` increments the
counter even on an already-FAILED task, so the claimed bound fails for
unrestricted operation sequences. -/
theorem retry_invariant_counterexample :
    ∃ t, lookupKey ((MessageQueue.run ⟨10, [], [], 0, 0⟩
      [QOp.enq .download [] "t" ⟨2024, 1, 1, 0, 0, 0, 0⟩,
       QOp.fail "t" "e" ⟨2024, 1, 1, 0, 0, 0, 0⟩,
       QOp.fail "t" "e" ⟨2024, 1, 1, 0, 0, 0, 0⟩,
       QOp.fail "t" "e" ⟨2024, 1, 1, 0, 0, 0, 0⟩,
       QOp.fail "t" "e" ⟨2024, 1, 1, 0, 0, 0, 0⟩,
       QOp.fail "t" "e" ⟨2024, 1, 1, 0, 0, 0, 0⟩]).tasks) "t" = some t ∧
      t.max_retries = 3 ∧ t.max_retries + 1 < t.retry_count := by
  refine ⟨⟨"t", .download, [], 5, 3, .failed, ⟨2024, 1, 1, 0, 0, 0, 0⟩,
    ⟨2024, 1, 1, 0, 0, 0, 0⟩, some "e"⟩, ?_, rfl, by decide⟩
  decide

/-- C6 (amended): provided `mark_failed` is only invoked on a task whose
status is RUNNING (the worker reports failure of the task it dequeued),
`mark_completed` is never invoked on a FAILED task, and enqueued ids are fresh,
then along every operation sequence `retry_count ≤ max_retries + 1`; a task
whose counter has passed `max_retries` is FAILED, and a FAILED task remains
FAILED for the rest of the sequence. -/
theorem retry_invariant_disciplined (M : Int) (q0 : MessageQueue)
    (hmk : MessageQueue.make M = .ok q0) (ops : List QOp)
    (hd : Disciplined q0 ops = true) :
    (∀ (tid : String) (t : Task),
      lookupKey (q0.run ops).tasks tid = some t →
      t.retry_count ≤ t.max_retries + 1 ∧
      (t.max_retries < t.retry_count → t.status = TaskStatus.failed)) ∧
    (∀ (ops1 ops2 : List QOp) (tid : String) (t : Task),
      ops = ops1 ++ ops2 →
      lookupKey (q0.run ops1).tasks tid = some t →
      t.status = TaskStatus.failed →
      ∃ t1, lookupKey (q0.run ops).tasks tid = some t1 ∧
        t1.status = TaskStatus.failed) := by
  have hq0 : q0.fifo = [] ∧ q0.tasks = [] := by
    unfold MessageQueue.make at hmk
    split at hmk
    · exact absurd hmk (by simp)
    · cases hmk; exact ⟨rfl, rfl⟩
  have hinv0 : QInv q0 := by
    constructor
    · intro tid hmem
      rw [hq0.1] at hmem
      exact absurd hmem (by simp)
    · intro tid t hl
      rw [hq0.2] at hl
      simp [lookupKey] at hl
  constructor
  · intro tid t hl
    obtain ⟨_, b2⟩ := qinv_run ops q0 hinv0 hd
    obtain ⟨_, _, _, b4, b5⟩ := b2 tid t hl
    exact ⟨b4, b5⟩
  · intro ops1 ops2 tid t he hl hf
    subst he
    obtain ⟨d1, d2⟩ := disciplined_append ops1 ops2 q0 hd
    have hinv1 := qinv_run ops1 q0 hinv0 d1
    rw [MessageQueue.run_append]
    exact failed_stable_run ops2 (q0.run ops1) hinv1 d2 tid t hl hf

theorem retry_invariant_disciplined_witness :
    ∃ t, lookupKey ((MessageQueue.run ⟨10, [], [], 0, 0⟩
      [QOp.enq .download [] "t" ⟨2024, 1, 1, 0, 0, 0, 0⟩,
       QOp.deq ⟨2024, 1, 1, 0, 0, 0, 0⟩,
       QOp.fail "t" "x" ⟨2024, 1, 1, 0, 0, 0, 0⟩]).tasks) "t" = some t ∧
      t.retry_count ≤ t.max_retries + 1 ∧
      (t.max_retries < t.retry_count → t.status = TaskStatus.failed) :=
  ⟨⟨"t", .download, [], 1, 3, .pending, ⟨2024, 1, 1, 0, 0, 0, 0⟩,
     ⟨2024, 1, 1, 0, 0, 0, 0⟩, some "x"⟩, by decide,
   (retry_invariant_disciplined 10 ⟨10, [], [], 0, 0⟩ rfl
     [QOp.enq .download [] "t" ⟨2024, 1, 1, 0, 0, 0, 0⟩,
      QOp.deq ⟨2024, 1, 1, 0, 0, 0, 0⟩,
      QOp.fail "t" "x" ⟨2024, 1, 1, 0, 0, 0, 0⟩] (by decide)).1 "t"
     ⟨"t", .download, [], 1, 3, .pending, ⟨2024, 1, 1, 0, 0, 0, 0⟩,
      ⟨2024, 1, 1, 0, 0, 0, 0⟩, some "x"⟩ (by decide)⟩

/-! ## ISO-8601 round-trip and the aggregator (C4) -/

theorem digitChar_spec : ∀ d, d < 10 →
    isDigitChar (Nat.digitChar d) = true ∧ charVal (Nat.digitChar d) = d := by
  decide

theorem parseDigits_padDigits (w : Nat) : ∀ (acc n : Nat) (rest : List Char),
    parseDigits acc w (padDigits w n ++ rest) =
      some (acc * 10 ^ w + n % 10 ^ w, rest) := by
  induction w with
  | zero => intro acc n rest; simp [padDigits, parseDigits, Nat.mod_one]
  | succ w ih =>
    intro acc n rest
    have hd : n / 10 ^ w % 10 < 10 := Nat.mod_lt _ (by norm_num)
    obtain ⟨hd1, hd2⟩ := digitChar_spec _ hd
    simp only [padDigits, List.cons_append, parseDigits, hd1, if_true, hd2,
      List.append_eq]
    rw [ih]
    congr 1
    have hmod : n % 10 ^ (w + 1) = n % 10 ^ w + 10 ^ w * (n / 10 ^ w % 10) := by
      rw [pow_succ]
      exact Nat.mod_mul
    rw [hmod, pow_succ]
    ring_nf

theorem parseDigits_exact (w n : Nat) (rest : List Char) (h : n < 10 ^ w) :
    parseDigits 0 w (padDigits w n ++ rest) = some (n, rest) := by
  rw [parseDigits_padDigits]
  simp [Nat.mod_eq_of_lt h]

set_option maxHeartbeats 2000000 in
theorem parseIso_isoChars (d : DateTime) (hv : d.Valid) :
    DateTime.parseIso d.isoChars = some d := by
  obtain ⟨y, mo, dy, hh, mi, ss, us⟩ := d
  simp only [DateTime.Valid] at hv
  obtain ⟨h1, h2, h3, h4, h5, h6, h7, h8, h9, h10⟩ := hv
  have ey : ∀ rest, parseDigits 0 4 (padDigits 4 y ++ rest) = some (y, rest) :=
    fun rest => parseDigits_exact 4 y rest (by norm_num; omega)
  have emo : ∀ rest, parseDigits 0 2 (padDigits 2 mo ++ rest) =
      some (mo, rest) :=
    fun rest => parseDigits_exact 2 mo rest (by norm_num; omega)
  have edy : ∀ rest, parseDigits 0 2 (padDigits 2 dy ++ rest) =
      some (dy, rest) :=
    fun rest => parseDigits_exact 2 dy rest (by norm_num; omega)
  have ehh : ∀ rest, parseDigits 0 2 (padDigits 2 hh ++ rest) =
      some (hh, rest) :=
    fun rest => parseDigits_exact 2 hh rest (by norm_num; omega)
  have emi : ∀ rest, parseDigits 0 2 (padDigits 2 mi ++ rest) =
      some (mi, rest) :=
    fun rest => parseDigits_exact 2 mi rest (by norm_num; omega)
  have ess : ∀ rest, parseDigits 0 2 (padDigits 2 ss ++ rest) =
      some (ss, rest) :=
    fun rest => parseDigits_exact 2 ss rest (by norm_num; omega)
  have ess0 : parseDigits 0 2 (padDigits 2 ss) = some (ss, []) := by
    simpa using ess []
  by_cases h0 : us = 0
  · subst h0
    simp [DateTime.isoChars, DateTime.parseIso, expectChar, ey, emo, edy,
      ehh, emi, ess, ess0]
  · have eus : parseDigits 0 6 (padDigits 6 us) = some (us, []) := by
      have := parseDigits_exact 6 us [] (by norm_num; omega)
      simpa using this
    simp [DateTime.isoChars, DateTime.parseIso, expectChar, h0, ey, emo, edy,
      ehh, emi, ess, eus]

theorem fromisoformat_isoformat (d : DateTime) (hv : d.Valid) :
    DateTime.fromisoformat d.isoformat = some d := by
  have ht : (DateTime.isoformat d).toList = d.isoChars := rfl
  rw [DateTime.fromisoformat, ht, parseIso_isoChars d hv]

/-- C4: `save(P)` followed by `retrieve(P.task_id)` on a fresh aggregator over
the same storage directory (cold in-memory cache) returns a ProcessingResult
equal to `P` field by field, the `created_at` having round-tripped through its
ISO-8601 string form (for calendar-valid datetimes the round-trip is the
identity, so the result is `P` itself). -/
theorem aggregator_roundtrip (P : ProcessingResult) (a : ResultAggregator)
    (hva : P.created_at.Valid) :
    (ResultAggregator.retrieve ⟨((a.save P).1).storage, []⟩ P.task_id).1 =
      some P := by
  have hs : ((a.save P).1).storage = insertKey a.storage P.task_id P.to_dict :=
    rfl
  have hd : ResultAggregator.dict_to_result P.to_dict = some P := by
    simp only [ResultAggregator.dict_to_result, ProcessingResult.to_dict,
      fromisoformat_isoformat P.created_at hva, Option.map_some]
    rfl
  simp only [ResultAggregator.retrieve, lookupKey, hs,
    lookupKey_insertKey_self, hd]

theorem aggregator_roundtrip_witness :
    (ResultAggregator.retrieve
      ⟨(((⟨[], []⟩ : ResultAggregator).save
          ⟨"tid1", ⟨"https://youtu.be/x", some "T", some 10, some "youtube",
            none, none⟩, "/v/x.mp4", "/a/x.mp3", "hello", "hi", 3/2,
            ⟨2024, 5, 1, 12, 30, 15, 123456⟩⟩).1).storage, []⟩ "tid1").1 =
      some ⟨"tid1", ⟨"https://youtu.be/x", some "T", some 10, some "youtube",
        none, none⟩, "/v/x.mp4", "/a/x.mp3", "hello", "hi", 3/2,
        ⟨2024, 5, 1, 12, 30, 15, 123456⟩⟩ :=
  aggregator_roundtrip
    ⟨"tid1", ⟨"https://youtu.be/x", some "T", some 10, some "youtube",
      none, none⟩, "/v/x.mp4", "/a/x.mp3", "hello", "hi", 3/2,
      ⟨2024, 5, 1, 12, 30, 15, 123456⟩⟩ ⟨[], []⟩ (by decide)

/-! ## Synchronous pipeline (C5, C8) -/

/-- C8: when a stage of the inline pipeline raises, `process_video` re-raises
`VideoProcessingError`, the pipeline metadata is marked `status="failed"` with
the stage's error text, the results map is untouched, and `get_result` returns
`none` for the pipeline. -/
theorem sync_error_propagation (env : StageEnv) (o : Orchestrator)
    (pid url : String) (st tr te : Rat) (cr : DateTime) (dq : String)
    (dn : DateTime) (e : String)
    (herr : Orchestrator.process_video_sync env { o with task_metadata := insertKey o.task_metadata pid ⟨url, st, "processing", none, none, []⟩ } pid url st tr te cr = .error e)
    (hres : lookupKey o.results pid = none) :
    (o.process_video env pid url false st tr te cr dq dn).1 =
      .error ("视频处理失败: " ++ e) ∧
    lookupKey (o.process_video env pid url false st tr te cr dq dn).2.task_metadata
      pid = some ⟨url, st, "failed", none, some e, []⟩ ∧
    (o.process_video env pid url false st tr te cr dq dn).2.results =
      o.results ∧
    (o.process_video env pid url false st tr te cr dq dn).2.get_result pid =
      none := by
  have hpv : o.process_video env pid url false st tr te cr dq dn =
      (.error ("视频处理失败: " ++ e),
       { o with task_metadata := adjustKey (insertKey o.task_metadata pid ⟨url, st, "processing", none, none, []⟩) pid fun m => { m with status := "failed", error := some e } }) := by
    simp [Orchestrator.process_video, herr]
  rw [hpv]
  refine ⟨rfl, ?_, rfl, ?_⟩
  · rw [lookupKey_adjustKey_self, lookupKey_insertKey_self]
    rfl
  · exact hres

theorem sync_error_propagation_witness :
    ((⟨[], [], ⟨100, [], [], 0, 0⟩⟩ : Orchestrator).process_video envFail
      "pid" "https://youtu.be/x" false 0 5 6 ⟨2024, 1, 1, 0, 0, 0, 0⟩ ""
      ⟨2024, 1, 1, 0, 0, 0, 0⟩).1 =
      .error ("视频处理失败: " ++ "下载失败") ∧
    lookupKey ((⟨[], [], ⟨100, [], [], 0, 0⟩⟩ : Orchestrator).process_video
      envFail "pid" "https://youtu.be/x" false 0 5 6 ⟨2024, 1, 1, 0, 0, 0, 0⟩
      "" ⟨2024, 1, 1, 0, 0, 0, 0⟩).2.task_metadata "pid" =
      some ⟨"https://youtu.be/x", 0, "failed", none, some "下载失败", []⟩ ∧
    ((⟨[], [], ⟨100, [], [], 0, 0⟩⟩ : Orchestrator).process_video envFail
      "pid" "https://youtu.be/x" false 0 5 6 ⟨2024, 1, 1, 0, 0, 0, 0⟩ ""
      ⟨2024, 1, 1, 0, 0, 0, 0⟩).2.get_result "pid" = none := by
  have h := sync_error_propagation envFail ⟨[], [], ⟨100, [], [], 0, 0⟩⟩
    "pid" "https://youtu.be/x" 0 5 6 ⟨2024, 1, 1, 0, 0, 0, 0⟩ ""
    ⟨2024, 1, 1, 0, 0, 0, 0⟩ "下载失败" rfl rfl
  exact ⟨h.1, h.2.1, h.2.2.2⟩

/-- C5 (amended): a successful synchronous pipeline run assembles the tuple
(metadata, video path, audio path, transcript, summary, elapsed) into a
`ProcessingResult` stored in the orchestrator's own in-memory `results` map
(returned by `get_result`), and marks the metadata completed; the
`ResultAggregator` component is not involved — the orchestrator never
constructs or calls one. -/
theorem sync_success_stores_result (env : StageEnv) (o : Orchestrator)
    (pid url vp ap tsc sm : String) (st tr te : Rat) (cr : DateTime)
    (dq : String) (dn : DateTime)
    (hdl : env.download url = .ok vp) (hex : env.extract vp = .ok ap)
    (htr : env.transcribe ap = .ok tsc) (hsm : env.summarize tsc = .ok sm) :
    (o.process_video env pid url false st tr te cr dq dn).1 = .ok pid ∧
    (o.process_video env pid url false st tr te cr dq dn).2.get_result pid =
      some ⟨pid, env.get_video_metadata url, vp, ap, tsc, sm, tr - st, cr⟩ ∧
    lookupKey (o.process_video env pid url false st tr te cr dq dn).2.task_metadata
      pid = some ⟨url, st, "completed", some te, none, []⟩ := by
  have hpv : o.process_video env pid url false st tr te cr dq dn =
      (.ok pid,
       { o with
         results := insertKey o.results pid ⟨pid, env.get_video_metadata url, vp, ap, tsc, sm, tr - st, cr⟩,
         task_metadata := adjustKey (insertKey o.task_metadata pid ⟨url, st, "processing", none, none, []⟩) pid fun m => { m with status := "completed", end_time := some te } }) := by
    simp [Orchestrator.process_video, Orchestrator.process_video_sync,
      hdl, hex, htr, hsm]
  rw [hpv]
  refine ⟨rfl, ?_, ?_⟩
  · exact lookupKey_insertKey_self _ _ _
  · rw [lookupKey_adjustKey_self, lookupKey_insertKey_self]
    rfl

theorem sync_success_stores_result_witness :
    ((⟨[], [], ⟨100, [], [], 0, 0⟩⟩ : Orchestrator).process_video envC
      "pid" "https://youtu.be/x" false 0 5 6 ⟨2024, 1, 1, 0, 0, 0, 0⟩ ""
      ⟨2024, 1, 1, 0, 0, 0, 0⟩).1 = .ok "pid" ∧
    ((⟨[], [], ⟨100, [], [], 0, 0⟩⟩ : Orchestrator).process_video envC
      "pid" "https://youtu.be/x" false 0 5 6 ⟨2024, 1, 1, 0, 0, 0, 0⟩ ""
      ⟨2024, 1, 1, 0, 0, 0, 0⟩).2.get_result "pid" =
      some ⟨"pid", ⟨"https://youtu.be/x", none, none, none, none, none⟩,
        "/v/abc.mp4", "/a/abc.mp3", "hello", "hi", 5 - 0,
        ⟨2024, 1, 1, 0, 0, 0, 0⟩⟩ := by
  have h := sync_success_stores_result envC ⟨[], [], ⟨100, [], [], 0, 0⟩⟩
    "pid" "https://youtu.be/x" "/v/abc.mp4" "/a/abc.mp3" "hello" "hi" 0 5 6
    ⟨2024, 1, 1, 0, 0, 0, 0⟩ "" ⟨2024, 1, 1, 0, 0, 0, 0⟩ rfl rfl rfl rfl
  exact ⟨h.1, h.2.1⟩

/-- C5 counterexample: a successful synchronous run (`process_video` with
`use_queue=false`) completes and stores its ProcessingResult in the
orchestrator's own `results` map, yet the `ResultAggregator` — which the
orchestrator never constructs or calls, so any aggregator instance in the
system stays untouched — does not hold the result: `retrieve` on it returns
`none` while the claim requires the aggregator to hold (and be able to
persist) the pipeline's ProcessingResult. -/
theorem sync_result_not_handed_to_aggregator :
    (syncSystemRun envC ⟨[], [], ⟨100, [], [], 0, 0⟩⟩ ⟨[], []⟩ "pid"
      "https://youtu.be/x" 0 5 6 ⟨2024, 1, 1, 0, 0, 0, 0⟩).1 = .ok "pid" ∧
    ((syncSystemRun envC ⟨[], [], ⟨100, [], [], 0, 0⟩⟩ ⟨[], []⟩ "pid"
      "https://youtu.be/x" 0 5 6 ⟨2024, 1, 1, 0, 0, 0, 0⟩).2.1.get_result
      "pid").isSome = true ∧
    ((syncSystemRun envC ⟨[], [], ⟨100, [], [], 0, 0⟩⟩ ⟨[], []⟩ "pid"
      "https://youtu.be/x" 0 5 6 ⟨2024, 1, 1, 0, 0, 0, 0⟩).2.2.retrieve
      "pid").1 = none :=
  ⟨rfl, rfl, rfl⟩

/-! ## Queue mode produces no results (C10) -/

theorem record_queue_task_results (o : Orchestrator) (parent : Option String)
    (stage tid : String) :
    (Orchestrator.record_queue_task o parent stage tid).results = o.results := by
  cases parent <;> rfl

theorem process_download_task_results (env : StageEnv) (o : Orchestrator)
    (task : Task) (parent : Option String) (ntid : String) (dnow : DateTime)
    (o1 : Orchestrator)
    (h : Orchestrator.process_download_task env o task parent ntid dnow =
      .ok o1) : o1.results = o.results := by
  unfold Orchestrator.process_download_task at h
  split at h
  · exact absurd h (by simp)
  · split at h
    · exact absurd h (by simp)
    · split at h
      · exact absurd h (by simp)
      · simp only [Except.ok.injEq] at h
        rw [← h, record_queue_task_results]

theorem process_extract_task_results (env : StageEnv) (o : Orchestrator)
    (task : Task) (parent : Option String) (ntid : String) (dnow : DateTime)
    (o1 : Orchestrator)
    (h : Orchestrator.process_extract_task env o task parent ntid dnow =
      .ok o1) : o1.results = o.results := by
  unfold Orchestrator.process_extract_task at h
  split at h
  · exact absurd h (by simp)
  · split at h
    · exact absurd h (by simp)
    · split at h
      · exact absurd h (by simp)
      · simp only [Except.ok.injEq] at h
        rw [← h, record_queue_task_results]

theorem process_transcribe_task_results (env : StageEnv) (o : Orchestrator)
    (task : Task) (parent : Option String) (ntid : String) (dnow : DateTime)
    (o1 : Orchestrator)
    (h : Orchestrator.process_transcribe_task env o task parent ntid dnow =
      .ok o1) : o1.results = o.results := by
  unfold Orchestrator.process_transcribe_task at h
  split at h
  · exact absurd h (by simp)
  · split at h
    · exact absurd h (by simp)
    · split at h
      · exact absurd h (by simp)
      · simp only [Except.ok.injEq] at h
        rw [← h, record_queue_task_results]

theorem process_summarize_task_results (env : StageEnv) (o : Orchestrator)
    (task : Task) (parent : Option String) (tend : Rat) (o1 : Orchestrator)
    (h : Orchestrator.process_summarize_task env o task parent tend =
      .ok o1) : o1.results = o.results := by
  unfold Orchestrator.process_summarize_task at h
  split at h
  · exact absurd h (by simp)
  · split at h
    · exact absurd h (by simp)
    · simp only [Except.ok.injEq] at h
      rw [← h]
      cases parent <;> rfl

theorem process_queue_task_results (env : StageEnv) (o : Orchestrator)
    (task : Task) (ntid : String) (dnow : DateTime) (tend : Rat) :
    (Orchestrator.process_queue_task env o task ntid dnow tend).results =
      o.results := by
  unfold Orchestrator.process_queue_task
  rcases htt : task.task_type with _ | _ | _ | _ <;> simp only [htt]
  case download =>
    rcases hh : Orchestrator.process_download_task env o task
        (lookupKey task.input_data "parent_task_id") ntid dnow with e | o1 <;>
      simp only [hh]
    exact process_download_task_results env o task _ ntid dnow o1 hh
  case extract =>
    rcases hh : Orchestrator.process_extract_task env o task
        (lookupKey task.input_data "parent_task_id") ntid dnow with e | o1 <;>
      simp only [hh]
    exact process_extract_task_results env o task _ ntid dnow o1 hh
  case transcribe =>
    rcases hh : Orchestrator.process_transcribe_task env o task
        (lookupKey task.input_data "parent_task_id") ntid dnow with e | o1 <;>
      simp only [hh]
    exact process_transcribe_task_results env o task _ ntid dnow o1 hh
  case summarize =>
    rcases hh : Orchestrator.process_summarize_task env o task
        (lookupKey task.input_data "parent_task_id") tend with e | o1 <;>
      simp only [hh]
    exact process_summarize_task_results env o task _ tend o1 hh

theorem worker_step_results (env : StageEnv) (o : Orchestrator)
    (ntid : String) (dnow : DateTime) (tend : Rat) :
    (o.worker_step env ntid dnow tend).results = o.results := by
  unfold Orchestrator.worker_step
  rcases hdq : o.message_queue.dequeue dnow with ⟨r, q1⟩
  rcases r with _ | task <;> simp only [hdq]
  exact process_queue_task_results env _ task ntid dnow tend

theorem process_video_queue_results (env : StageEnv) (o : Orchestrator)
    (pid url : String) (st t1 t2 : Rat) (cr : DateTime) (dq : String)
    (dn : DateTime) :
    (o.process_video env pid url true st t1 t2 cr dq dn).2.results =
      o.results := by
  unfold Orchestrator.process_video Orchestrator.enqueue_pipeline_tasks
  rcases henq : ({ o with task_metadata := insertKey o.task_metadata pid ⟨url, st, "processing", none, none, []⟩ } : Orchestrator).message_queue.enqueue .download [("parent_task_id", pid), ("video_url", url)] dq dn with e | pair
  · simp [henq]
  · obtain ⟨q1, dtid⟩ := pair
    simp [henq]

theorem qstep_results (env : StageEnv) (o : Orchestrator) (op : QueueModeOp) :
    (o.qstep env op).results = o.results := by
  cases op with
  | start pid url dtid st dn =>
    exact process_video_queue_results env o pid url st 0 0 ⟨1, 1, 1, 0, 0, 0, 0⟩
      dtid dn
  | work ntid dn tend => exact worker_step_results env o ntid dn tend

/-- C10: in queue mode no `ProcessingResult` is ever constructed or stored —
along any sequence of queue-mode operations the `results` map never changes —
and a worker step that processes a SUMMARIZE task successfully marks the
parent pipeline's metadata `status="completed"` while `get_result` for that
pipeline still returns `none`. -/
theorem queue_mode_no_results (env : StageEnv) (o0 o : Orchestrator)
    (ops : List QueueModeOp) (task : Task) (q1 : MessageQueue)
    (pid tr ntid : String) (dnow : DateTime) (tend : Rat) (m : PipelineMeta)
    (hdq : o.message_queue.dequeue dnow = (some task, q1))
    (htt : task.task_type = TaskType.summarize)
    (hinp : task.input_data = [("parent_task_id", pid), ("transcript", tr)])
    (hsm : ∃ sm, env.summarize tr = .ok sm)
    (hpid : lookupKey o.task_metadata pid = some m)
    (hres : lookupKey o.results pid = none) :
    (Orchestrator.qrun env o0 ops).results = o0.results ∧
    lookupKey (o.worker_step env ntid dnow tend).task_metadata pid =
      some { m with status := "completed", end_time := some tend } ∧
    (o.worker_step env ntid dnow tend).results = o.results ∧
    (o.worker_step env ntid dnow tend).get_result pid = none := by
  obtain ⟨sm, hsm⟩ := hsm
  have hparent : lookupKey task.input_data "parent_task_id" = some pid := by
    rw [hinp]; rfl
  have htsc : lookupKey task.input_data "transcript" = some tr := by
    rw [hinp]; rfl
  have hws : o.worker_step env ntid dnow tend =
      { o with
        message_queue := (q1.mark_completed task.task_id dnow).2,
        task_metadata := adjustKey o.task_metadata pid fun m1 => { m1 with status := "completed", end_time := some tend } } := by
    unfold Orchestrator.worker_step
    simp only [hdq]
    unfold Orchestrator.process_queue_task
    simp only [hparent, htt]
    unfold Orchestrator.process_summarize_task
    simp only [htsc, hsm]
  refine ⟨?_, ?_, ?_, ?_⟩
  · induction ops generalizing o0 with
    | nil => rfl
    | cons op rest ih =>
      have h1 := qstep_results env o0 op
      simpa [Orchestrator.qrun] using (ih (o0.qstep env op)).trans h1
  · rw [hws]
    simp only [lookupKey_adjustKey_self, hpid]
    rfl
  · rw [hws]
  · rw [hws]
    exact hres

theorem queue_mode_no_results_witness :
    (Orchestrator.qrun envC ⟨[], [], ⟨10, [], [], 0, 0⟩⟩
      [QueueModeOp.start "pid" "https://youtu.be/x" "qt0" 0
        ⟨2024, 1, 1, 0, 0, 0, 0⟩]).results = [] ∧
    lookupKey ((⟨[], [("pid", ⟨"u", 0, "processing", none, none, []⟩)],
      ⟨10, ["qt"], [("qt", ⟨"qt", .summarize, [("parent_task_id", "pid"), ("transcript", "hello")], 0, 3, .pending, ⟨2024, 1, 1, 0, 0, 0, 0⟩, ⟨2024, 1, 1, 0, 0, 0, 0⟩, none⟩)], 0, 0⟩⟩ : Orchestrator).worker_step
      envC "nt" ⟨2024, 1, 1, 0, 0, 0, 0⟩ 9).task_metadata "pid" =
      some ⟨"u", 0, "completed", some 9, none, []⟩ ∧
    ((⟨[], [("pid", ⟨"u", 0, "processing", none, none, []⟩)],
      ⟨10, ["qt"], [("qt", ⟨"qt", .summarize, [("parent_task_id", "pid"), ("transcript", "hello")], 0, 3, .pending, ⟨2024, 1, 1, 0, 0, 0, 0⟩, ⟨2024, 1, 1, 0, 0, 0, 0⟩, none⟩)], 0, 0⟩⟩ : Orchestrator).worker_step
      envC "nt" ⟨2024, 1, 1, 0, 0, 0, 0⟩ 9).get_result "pid" = none := by
  have h := queue_mode_no_results envC ⟨[], [], ⟨10, [], [], 0, 0⟩⟩
    ⟨[], [("pid", ⟨"u", 0, "processing", none, none, []⟩)],
      ⟨10, ["qt"], [("qt", ⟨"qt", .summarize, [("parent_task_id", "pid"), ("transcript", "hello")], 0, 3, .pending, ⟨2024, 1, 1, 0, 0, 0, 0⟩, ⟨2024, 1, 1, 0, 0, 0, 0⟩, none⟩)], 0, 0⟩⟩
    [QueueModeOp.start "pid" "https://youtu.be/x" "qt0" 0
      ⟨2024, 1, 1, 0, 0, 0, 0⟩]
    ⟨"qt", .summarize, [("parent_task_id", "pid"), ("transcript", "hello")], 0, 3, .running, ⟨2024, 1, 1, 0, 0, 0, 0⟩, ⟨2024, 1, 1, 0, 0, 0, 0⟩, none⟩
    ⟨10, [], [("qt", ⟨"qt", .summarize, [("parent_task_id", "pid"), ("transcript", "hello")], 0, 3, .running, ⟨2024, 1, 1, 0, 0, 0, 0⟩, ⟨2024, 1, 1, 0, 0, 0, 0⟩, none⟩)], 0, 0⟩
    "pid" "hello" "nt" ⟨2024, 1, 1, 0, 0, 0, 0⟩ 9
    ⟨"u", 0, "processing", none, none, []⟩
    (by decide) rfl rfl ⟨"hi", rfl⟩ rfl rfl
  exact ⟨h.1, h.2.1, h.2.2.2⟩

end VideoProcessor
